import Mathlib

/-!
Verification of the Shilling Sense transaction-enrichment cascade and
budget-statistics engine.  The definitions below are a shallow embedding of
the TypeScript sources:

* `services/heuristicService.ts`   — pattern extractor (regex cascade),
* `services/merchantCategoryMapService.ts` — category rule table,
* `services/cachingService.ts`     — enrichment cache,
* `services/geminiService.ts`      — enrichment orchestrator, retry wrapper,
  batch enrichment, category-mismatch validation,
* `components/modals/BudgetModal.tsx` — budget draft computation and
  impact analysis.

JavaScript numbers are modelled as rationals (`ℚ`), machine strings as
`String`, `undefined`/`null` as `Option`, and the remote AI client as an
oracle parameter.  `Math.sqrt` (used only for the volatility statistic) is
modelled as an abstract function parameter, since no claim depends on its
value.
-/

namespace ShillingSense

/-! ### JavaScript string primitives -/

/-- JS `\s` character class (ASCII part plus NBSP; the inputs appearing in
the repository are ASCII). -/
def isWsChar (c : Char) : Bool :=
  c == ' ' || c == '\t' || c == '\n' || c == '\r' ||
  c == Char.ofNat 11 || c == Char.ofNat 12 || c == Char.ofNat 160

/-- JS `String.prototype.trim`. -/
def jsTrim (s : String) : String :=
  ⟨((s.data.dropWhile fun c => isWsChar c).reverse.dropWhile fun c => isWsChar c).reverse⟩

/-- Auxiliary for `collapseWs`: the flag records whether the previous
character was whitespace (so a run is replaced by a single space). -/
def collapseWsAux : Bool → List Char → List Char
  | _, [] => []
  | inWs, c :: t =>
    if isWsChar c then
      if inWs then collapseWsAux true t else ' ' :: collapseWsAux true t
    else c :: collapseWsAux false t

/-- JS `.replace(/\s+/g, ' ')`: every maximal whitespace run becomes one
space. -/
def collapseWs (l : List Char) : List Char := collapseWsAux false l

/-- JS truthiness of an optional string (`null`/`undefined` and `""` are
falsy). -/
def optTruthy : Option String → Bool
  | some s => s ≠ ""
  | none => false

/-- JS `a || b` for an optional string `a` and string default `b`. -/
def jsOrStr (a : Option String) (b : String) : String :=
  match a with
  | some s => if s = "" then b else s
  | none => b

/-- JS `String.prototype.toLowerCase` (ASCII; the keyword tables and cache
keys in this code base are ASCII). -/
def strToLower (s : String) : String := ⟨s.data.map Char.toLower⟩

/-- Lexicographic comparison of char lists by code point — the comparison
underlying JS string `<` (for the ASCII strings this code compares). -/
def listLtB : List Char → List Char → Bool
  | [], [] => false
  | [], _ :: _ => true
  | _ :: _, [] => false
  | a :: as, b :: bs =>
    if a.toNat < b.toNat then true
    else if b.toNat < a.toNat then false
    else listLtB as bs

/-- JS string `<`. -/
def strLt (a b : String) : Bool := listLtB a.data b.data

/-- JS string `≤` (total order: `a ≤ b ↔ ¬ b < a`). -/
def strLe (a b : String) : Bool := !(strLt b a)

/-- Insertion step of a stable comparison sort (the behaviour JS
`Array.prototype.sort` guarantees for a consistent comparator). -/
def jsOrderedInsert {α : Type} (le : α → α → Bool) (a : α) : List α → List α
  | [] => [a]
  | b :: l => if le a b then a :: b :: l else b :: jsOrderedInsert le a l

/-- Stable comparison sort modelling JS `Array.prototype.sort`. -/
def jsSortBy {α : Type} (le : α → α → Bool) : List α → List α
  | [] => []
  | a :: l => jsOrderedInsert le a (jsSortBy le l)

/-! ### Regular-expression engine

A small backtracking matcher sufficient for the rule set of
`heuristicService.ts`.  All the rules carry the `/i` flag, so literals are
compared case-insensitively while captures return the original text.
Matching order (lazy/greedy, leftmost start position) follows JS
`String.prototype.match`. -/

inductive Rx where
  | emp : Rx
  | ch : (Char → Bool) → Rx
  | seq : Rx → Rx → Rx
  | alt : Rx → Rx → Rx
  | star : Bool → Rx → Rx
  | grp : Rx → Rx
  | look : Rx → Rx
  | eos : Rx

/-- CPS backtracking matcher.  `cap` is the (single) capture group's value
so far; the continuation receives the remaining input and the capture.
Fuel bounds the recursion depth; it is chosen large enough for every
concrete evaluation in this file. -/
def rxRun : Nat → Rx → List Char → Option (List Char) →
    (List Char → Option (List Char) → Option (Option (List Char))) →
    Option (Option (List Char))
  | 0, _, _, _, _ => none
  | _ + 1, .emp, s, cap, k => k s cap
  | _ + 1, .ch p, s, cap, k =>
    match s with
    | [] => none
    | c :: t => if p c then k t cap else none
  | f + 1, .seq a b, s, cap, k =>
    rxRun f a s cap fun s2 cap2 => rxRun f b s2 cap2 k
  | f + 1, .alt a b, s, cap, k =>
    (rxRun f a s cap k).orElse fun _ => rxRun f b s cap k
  | f + 1, .star g r, s, cap, k =>
    if g then
      (rxRun f r s cap fun s2 cap2 =>
        if s2.length < s.length then rxRun f (.star g r) s2 cap2 k else none).orElse
        fun _ => k s cap
    else
      (k s cap).orElse fun _ =>
        rxRun f r s cap fun s2 cap2 =>
          if s2.length < s.length then rxRun f (.star g r) s2 cap2 k else none
  | f + 1, .grp r, s, cap, k =>
    rxRun f r s cap fun s2 _ => k s2 (some (s.take (s.length - s2.length)))
  | f + 1, .look r, s, cap, k =>
    rxRun f r s cap fun _ _ => k s cap
  | _ + 1, .eos, s, cap, k =>
    match s with
    | [] => k s cap
    | _ => none

/-- JS `String.prototype.match` (non-global): try the pattern at every
start position, leftmost first.  `some cap` means a match was found whose
group-1 capture is `cap`. -/
def rxSearch (fuel : Nat) (r : Rx) (s : List Char) : Option (Option (List Char)) :=
  match rxRun fuel r s none fun _ cap => some cap with
  | some cap => some cap
  | none =>
    match s with
    | [] => none
    | _ :: t => rxSearch fuel r t

/-- Case-insensitive literal character (all rules use the `/i` flag). -/
def Rx.lit (c : Char) : Rx := .ch fun x => x.toLower == c.toLower

/-- Case-insensitive literal string. -/
def Rx.str (s : String) : Rx := s.data.foldr (fun c r => .seq (.lit c) r) .emp

/-- JS `.` (anything but a line terminator). -/
def Rx.anyc : Rx := .ch fun c => !(c == '\n' || c == '\r')

def Rx.digit : Rx := .ch fun c => c.isDigit

def Rx.ws : Rx := .ch fun c => isWsChar c

/-- `r+` (lazy when the flag is `false`). -/
def Rx.plus (g : Bool) (r : Rx) : Rx := .seq r (.star g r)

/-- `r{2,}` (greedy). -/
def Rx.rep2plus (r : Rx) : Rx := .seq r (.seq r (.star true r))

/-- `\d{2}`. -/
def Rx.d2 : Rx := .seq .digit .digit

/-- `\d{4}`. -/
def Rx.d4 : Rx := .seq .digit (.seq .digit (.seq .digit .digit))

/-- `\d{2}-\d{2}-\d{4}`. -/
def Rx.dateRx : Rx := .seq .d2 (.seq (.lit '-') (.seq .d2 (.seq (.lit '-') .d4)))

/-! ### `heuristicService.ts` -/

structure MerchantExtractor where
  regex : Rx
  pfx : Option String

/-- The ordered merchant extraction rules of `heuristicService.ts`
(`merchantExtractors`); the order is important. -/
def merchantExtractors : List MerchantExtractor := [
  -- /Lipa na M-PESA to (.+?)(?: Transaction ID:|$)/i
  ⟨.seq (.str "Lipa na M-PESA to ")
    (.seq (.grp (.plus false .anyc)) (.alt (.str " Transaction ID:") .eos)), none⟩,
  -- /Pay Bill to (.+?)(?: Acc No\..*|$)/i
  ⟨.seq (.str "Pay Bill to ")
    (.seq (.grp (.plus false .anyc))
      (.alt (.seq (.str " Acc No.") (.star true .anyc)) .eos)), none⟩,
  -- /M-PESA Paybill, (.+?),/i
  ⟨.seq (.str "M-PESA Paybill, ") (.seq (.grp (.plus false .anyc)) (.lit ',')), none⟩,
  -- /Card Purchase at (.+?)(?: on .*|$)/i
  ⟨.seq (.str "Card Purchase at ")
    (.seq (.grp (.plus false .anyc))
      (.alt (.seq (.str " on ") (.star true .anyc)) .eos)), none⟩,
  -- /Withdrawal from Agent ([\d\w\s-]+?)(?: at .*|$)/i  with prefix "Agent "
  ⟨.seq (.str "Withdrawal from Agent ")
    (.seq (.grp (.plus false (.ch fun c => c.isDigit || c.isAlpha || c == '_' || isWsChar c || c == '-')))
      (.alt (.seq (.str " at ") (.star true .anyc)) .eos)), some "Agent "⟩,
  -- /KE-[\d-]+\s+([A-Z][A-Z\s&]+?)(?=\s+(?:\d|PESA)|\|)/i
  ⟨.seq (.str "KE-")
    (.seq (.plus true (.ch fun c => c.isDigit || c == '-'))
      (.seq (.plus true .ws)
        (.seq (.grp (.seq (.ch fun c => c.isAlpha)
          (.plus false (.ch fun c => c.isAlpha || isWsChar c || c == '&'))))
          (.look (.alt (.seq (.plus true .ws) (.alt .digit (.str "PESA"))) (.lit '|')))))), none⟩,
  -- /DEBIT CARD TXN AT (.+?)(?:\s{2,}|\d{2}-\d{2}-\d{4})/i
  ⟨.seq (.str "DEBIT CARD TXN AT ")
    (.seq (.grp (.plus false .anyc)) (.alt (.rep2plus .ws) .dateRx)), none⟩,
  -- /IBANKING TRF (?:TO|FROM) \d+ (.+?)$/i
  ⟨.seq (.str "IBANKING TRF ")
    (.seq (.alt (.str "TO") (.str "FROM"))
      (.seq (.str " ")
        (.seq (.plus true .digit)
          (.seq (.str " ") (.seq (.grp (.plus false .anyc)) .eos))))), none⟩,
  -- /PESA \S+ (.+?) \d{4}/i
  ⟨.seq (.str "PESA ")
    (.seq (.plus true (.ch fun c => !isWsChar c))
      (.seq (.str " ")
        (.seq (.grp (.plus false .anyc)) (.seq (.str " ") .d4)))), none⟩,
  -- /RTGS .+ ITF (.+?) KE/i
  ⟨.seq (.str "RTGS ")
    (.seq (.plus true .anyc)
      (.seq (.str " ITF ") (.seq (.grp (.plus false .anyc)) (.str " KE")))), none⟩]

structure HeuristicData where
  merchant : Option String
  cacheKey : String
deriving DecidableEq

def rxFuel : Nat := 20000

/-- The first-match-wins loop inside `extractHeuristicData`: a rule applies
when its regex matches and the captured group is truthy (nonempty). -/
def extractLoop (trimmed : String) : List MerchantExtractor → HeuristicData
  | [] => ⟨none, trimmed⟩
  | e :: rest =>
    match rxSearch rxFuel e.regex trimmed.data with
    | some (some capChars) =>
      if capChars.isEmpty then extractLoop trimmed rest
      else
        let merchant : String :=
          ⟨collapseWs ((e.pfx.getD "") ++ jsTrim ⟨capChars⟩).data⟩
        ⟨some merchant, merchant⟩
    | some none => extractLoop trimmed rest
    | none => extractLoop trimmed rest

/-- `extractHeuristicData` of `heuristicService.ts`. -/
def extractHeuristicData (description : String) : HeuristicData :=
  extractLoop (jsTrim description) merchantExtractors

/-! ### `merchantCategoryMapService.ts` -/

/-- JS `String.prototype.includes` on char lists. -/
def listIncludes (needle : List Char) : List Char → Bool
  | [] => needle.isEmpty
  | c :: t => needle.isPrefixOf (c :: t) || listIncludes needle t

/-- JS `String.prototype.includes`. -/
def strIncludes (hay needle : String) : Bool := listIncludes needle.data hay.data

/-- The fixed `categoryRules` table of `merchantCategoryMapService.ts`;
first matching rule wins. -/
def categoryRules : List (List String × String) := [
  (["naivas", "carrefour", "quickmart", "chandarana", "cleanshelf"], "Groceries"),
  (["kplc", "kenya power", "prepaid", "postpaid"], "Utilities"),
  (["zuku", "safaricom home", "faiba"], "Utilities"),
  (["nairobi water", "nwsc"], "Utilities"),
  (["java", "artcaffe", "kfc", "dominos", "pizza inn", "chicken inn"], "Eating Out"),
  (["uber", "bolt", "little cab"], "Transport"),
  (["total", "shell", "rubis", "ola"], "Transport"),
  (["equity", "kcb", "co-op", "coop", "standard chartered", "stanchart", "absia"], "Internal Transfer"),
  (["nhif"], "Health"),
  (["gotv", "dstv", "netflix"], "Entertainment"),
  (["jumia", "kilimall"], "Shopping")]

/-- `getCategoryForMerchant` of `merchantCategoryMapService.ts`:
case-insensitive substring membership, first matching rule wins. -/
def getCategoryForMerchant (merchantName : String) : Option String :=
  let lower := strToLower merchantName
  (categoryRules.find? fun rule => rule.1.any fun kw => strIncludes lower kw).map
    fun rule => rule.2

/-! ### `cachingService.ts`

The in-memory `Map` is modelled as an insertion-ordered association list;
`set` overwrites in place (last writer wins).  Hydration from and
persistence to `localStorage` are process-lifecycle concerns outside the
cascade logic; the cache value itself is threaded explicitly. -/

structure EnrichedMerchantInfo where
  officialName : String
  website : String
deriving DecidableEq

structure EnrichedData where
  merchant : String
  category : String
  enrichedInfo : Option EnrichedMerchantInfo
deriving DecidableEq

abbrev Cache : Type := List (String × EnrichedData)

/-- `getCachedEnrichment`. -/
def getCachedEnrichment (cache : Cache) (key : String) : Option EnrichedData :=
  (List.find? (fun e => e.1 == key) cache).map fun e => e.2

/-- `setCachedEnrichment` (JS `Map.set`: overwrite an existing entry in
place, otherwise append). -/
def setCachedEnrichment (cache : Cache) (key : String) (data : EnrichedData) : Cache :=
  match cache with
  | [] => [(key, data)]
  | e :: t => if e.1 == key then (key, data) :: t else e :: setCachedEnrichment t key data

/-! ### `geminiService.ts`: retry wrapper

`retryWithBackoff(fn, retries = 3, delay = 500)` makes an initial attempt
and up to `retries` re-attempts, doubling the delay each time.  The wrapped
function is modelled as a map from the attempt number to an `Except`
outcome; the trace records the number of attempts actually made and the
delays slept between them. -/

structure RetryTrace (ε α : Type) where
  result : Except ε α
  attempts : Nat
  delays : List Nat

def retryWithBackoff {ε α : Type} (fn : Nat → Except ε α) :
    Nat → Nat → Nat → RetryTrace ε α
  | retries, delay, attempt =>
    match fn attempt with
    | .ok a => ⟨.ok a, 1, []⟩
    | .error e =>
      match retries with
      | 0 => ⟨.error e, 1, []⟩
      | r + 1 =>
        let t := retryWithBackoff fn r (delay * 2) (attempt + 1)
        ⟨t.result, t.attempts + 1, delay :: t.delays⟩

/-- The default `retries` argument of `retryWithBackoff`. -/
def defaultRetries : Nat := 3

/-- The default `delay` argument of `retryWithBackoff` (milliseconds). -/
def defaultDelay : Nat := 500

/-! ### `geminiService.ts`: single-item enrichment orchestrator -/

inductive TransactionType where
  | expense
  | income
deriving DecidableEq

structure ParsedTransaction where
  merchant : Option String
  amount : ℚ
  category : Option String
  type : TransactionType
  date : String
  description : String
deriving DecidableEq

/-- The value returned by `enrichTransaction`
(`ParsedTransaction & { enrichedInfo?: EnrichedMerchantInfo }`). -/
structure EnrichedTx where
  merchant : Option String
  amount : ℚ
  category : Option String
  type : TransactionType
  date : String
  description : String
  enrichedInfo : Option EnrichedMerchantInfo
deriving DecidableEq

/-- One attempt of the remote enrichment client, as seen by the
orchestrator: failure, or a parsed JSON object with optional `merchant`
and `category` keys and the final `enrichedInfo` (the grounding-metadata
fallback that fills a missing `enrichedInfo` is remote-side data and is
folded into this value). -/
inductive RemoteOutcome where
  | failure
  | success (merchant : Option String) (category : Option String)
      (enrichedInfo : Option EnrichedMerchantInfo)
deriving DecidableEq

/-- The result of `enrichTransaction` together with its observable
effects: how many cache lookups and remote attempts were made, and the
final cache state. -/
structure EnrichOutcome where
  result : EnrichedTx
  cacheReads : Nat
  remoteCalls : Nat
  cache : Cache
deriving DecidableEq

/-- The async closure `enrichTransaction` passes to `retryWithBackoff`.
Its `try`/`catch` returns a value on success and on failure alike (the
`catch` produces the degraded result), so the error type is `Empty`:
the promise never rejects. -/
def enrichAttempt (transaction : ParsedTransaction) (identifiedMerchant : Option String)
    (cacheKey : String) (cache : Cache) (remote : Nat → RemoteOutcome) (attempt : Nat) :
    Except Empty (EnrichedTx × Cache) :=
  match remote attempt with
  | .success m c info =>
    -- finalData = { ...transaction, ...enrichedData }: a key present in the
    -- response wins over the transaction's field.
    let finalMerchant := m.orElse fun _ => transaction.merchant
    let finalCategory := c.orElse fun _ => transaction.category
    let cache2 := setCachedEnrichment cache cacheKey
      ⟨jsOrStr finalMerchant "Unknown", jsOrStr finalCategory "Other", info⟩
    .ok (⟨finalMerchant, transaction.amount, finalCategory, transaction.type,
      transaction.date, transaction.description, info⟩, cache2)
  | .failure =>
    -- the catch block: degraded result, cache untouched.
    .ok (⟨some (jsOrStr identifiedMerchant "Unknown"), transaction.amount, some "Other",
      transaction.type, transaction.date, transaction.description, none⟩, cache)

/-- Layer 1-2 of the cascade: `if (identifiedMerchant) { const
mappedCategory = getCategoryForMerchant(identifiedMerchant); if
(mappedCategory) ... }` — the category the rule table assigns, if the
heuristic found a (truthy) merchant and the table has a hit. -/
def ruleTableHit (transaction : ParsedTransaction) : Option String :=
  let h := extractHeuristicData transaction.description
  if optTruthy h.merchant then getCategoryForMerchant (h.merchant.getD "") else none

/-- `enrichTransaction` of `geminiService.ts`: the four-layer cascade. -/
def enrichTransaction (transaction : ParsedTransaction) (cache : Cache)
    (remote : Nat → RemoteOutcome) : EnrichOutcome :=
  let h := extractHeuristicData transaction.description
  match ruleTableHit transaction with
  | some mappedCategory =>
    ⟨⟨h.merchant, transaction.amount, some mappedCategory, transaction.type,
      transaction.date, transaction.description, none⟩, 0, 0, cache⟩
  | none =>
    match getCachedEnrichment cache h.cacheKey with
    | some cachedData =>
      -- { ...transaction, ...cachedData, merchant: identifiedMerchant || cachedData.merchant }
      let merchant := if optTruthy h.merchant then h.merchant.getD "" else cachedData.merchant
      ⟨⟨some merchant, transaction.amount, some cachedData.category, transaction.type,
        transaction.date, transaction.description, cachedData.enrichedInfo⟩, 1, 0, cache⟩
    | none =>
      let t := retryWithBackoff (enrichAttempt transaction h.merchant h.cacheKey cache remote)
        defaultRetries defaultDelay 0
      match t.result with
      | .ok res => ⟨res.1, 1, t.attempts, res.2⟩
      | .error e => e.elim

/-! ### `geminiService.ts`: batch enrichment -/

structure TransactionToEnrich where
  index : Nat
  description : String
  cacheKey : String
  identifiedMerchant : Option String
deriving DecidableEq

structure BatchEnrichmentResult where
  index : Nat
  merchant : String
  category : String
  enrichedInfo : Option EnrichedMerchantInfo
deriving DecidableEq

/-- One attempt of the remote batch call: failure, or the parsed JSON
array of per-item results. -/
inductive BatchRemoteOutcome where
  | failure
  | success (results : List BatchEnrichmentResult)
deriving DecidableEq

structure BatchOutcome where
  results : List BatchEnrichmentResult
  remoteCalls : Nat
  cache : Cache
deriving DecidableEq

/-- The closure `batchEnrichTransactions` passes to `retryWithBackoff`;
again the `catch` converts failure into a per-item fallback list, so the
promise never rejects. -/
def batchAttempt (transactions : List TransactionToEnrich) (cache : Cache)
    (remote : Nat → BatchRemoteOutcome) (attempt : Nat) :
    Except Empty (List BatchEnrichmentResult × Cache) :=
  match remote attempt with
  | .success results =>
    -- results.forEach: cache each result against the cacheKey of the input
    -- item with the same index, if one exists.
    let cache2 := results.foldl (fun c r =>
      match transactions.find? (fun t => t.index == r.index) with
      | some originalTx =>
        setCachedEnrichment c originalTx.cacheKey ⟨r.merchant, r.category, r.enrichedInfo⟩
      | none => c) cache
    .ok (results, cache2)
  | .failure =>
    .ok (transactions.map fun t =>
      ⟨t.index, jsOrStr t.identifiedMerchant "Unknown", "Other", none⟩, cache)

/-- `batchEnrichTransactions` of `geminiService.ts`. -/
def batchEnrichTransactions (transactions : List TransactionToEnrich) (cache : Cache)
    (remote : Nat → BatchRemoteOutcome) : BatchOutcome :=
  match transactions with
  | [] => ⟨[], 0, cache⟩
  | _ :: _ =>
    let t := retryWithBackoff (batchAttempt transactions cache remote)
      defaultRetries defaultDelay 0
    match t.result with
    | .ok res => ⟨res.1, t.attempts, res.2⟩
    | .error e => e.elim

/-! ### `geminiService.ts`: category-mismatch validation -/

abbrev ValidationCache : Type := List (String × Bool)

def vcacheGet (vc : ValidationCache) (key : String) : Option Bool :=
  (List.find? (fun e => e.1 == key) vc).map fun e => e.2

def vcacheSet (vc : ValidationCache) (key : String) (b : Bool) : ValidationCache :=
  match vc with
  | [] => [(key, b)]
  | e :: t => if e.1 == key then (key, b) :: t else e :: vcacheSet t key b

inductive ValidationRemoteOutcome where
  | failure
  | success (isLogical : Bool)
deriving DecidableEq

structure ValidationOutcome where
  result : Bool
  remoteCalls : Nat
  vcache : ValidationCache
deriving DecidableEq

/-- The closure `validateCategoryMismatch` passes to `retryWithBackoff`:
on success the verdict is cached and returned, the `catch` returns `true`
(and caches nothing), so the promise never rejects. -/
def validateAttempt (cacheKey : String) (vc : ValidationCache)
    (remote : Nat → ValidationRemoteOutcome) (attempt : Nat) :
    Except Empty (Bool × ValidationCache) :=
  match remote attempt with
  | .success isLogical => .ok (isLogical, vcacheSet vc cacheKey isLogical)
  | .failure => .ok (true, vc)

/-- `validateCategoryMismatch` of `geminiService.ts`.  Note the memo cache
is consulted first, the `"Other"`/`"General"` shortcut second, and the
retry wrapper is invoked with `retries = 1`. -/
def validateCategoryMismatch (description newCategory : String) (vc : ValidationCache)
    (remote : Nat → ValidationRemoteOutcome) : ValidationOutcome :=
  let cacheKey := strToLower (jsTrim description) ++ "|" ++ strToLower newCategory
  match vcacheGet vc cacheKey with
  | some b => ⟨b, 0, vc⟩
  | none =>
    if newCategory = "Other" || newCategory = "General" then ⟨true, 0, vc⟩
    else
      let t := retryWithBackoff (validateAttempt cacheKey vc remote) 1 defaultDelay 0
      match t.result with
      | .ok res => ⟨res.1, t.attempts, res.2⟩
      | .error e => e.elim

/-! ### `BudgetModal.tsx`: budget statistics engine

Statements over transactions use the fields the computation reads
(`date`, `amount`, `type`, `category`, `isTransfer`); an absent
`isTransfer` is JS-falsy and is modelled as `false`.  `new
Date(t.date).getFullYear()/getMonth()` on the app's ISO `YYYY-MM-DD` date
strings yields the `YYYY-MM` prefix (UTC execution), so the month key is
the 7-character prefix. -/

structure Transaction where
  id : String
  accountId : String
  date : String
  merchant : String
  amount : ℚ
  type : TransactionType
  category : String
  description : String
  isTransfer : Bool
deriving DecidableEq

structure Budget where
  id : String
  category : String
  limit : ℚ
  period : String
  strategy : String
deriving DecidableEq

structure UserProfile where
  name : String
  primaryGoal : String
  targetAmount : Option ℚ
deriving DecidableEq

/-- `` `${d.getFullYear()}-${String(d.getMonth() + 1).padStart(2, '0')}` ``
for an ISO date string. -/
def monthKey (date : String) : String := ⟨date.data.take 7⟩

/-- Lookup in a JS object used as a string-keyed record. -/
def jsRecGet {α : Type} (m : List (String × α)) (key : String) : Option α :=
  (List.find? (fun e => e.1 == key) m).map fun e => e.2

/-- `obj[key] || 0`. -/
def jsRecGetD (m : List (String × ℚ)) (key : String) : ℚ := (jsRecGet m key).getD 0

/-- `obj[key] = (obj[key] || 0) + v` (insertion order preserved, as in JS
objects with string keys that are not array indices). -/
def jsRecBump (m : List (String × ℚ)) (key : String) (v : ℚ) : List (String × ℚ) :=
  match m with
  | [] => [(key, v)]
  | e :: t => if e.1 == key then (key, e.2 + v) :: t else e :: jsRecBump t key v

/-- `if (!obj[cat]) obj[cat] = {}; obj[cat][mon] = (obj[cat][mon] || 0) + v`. -/
def jsRecBump2 (m : List (String × List (String × ℚ))) (cat mon : String) (v : ℚ) :
    List (String × List (String × ℚ)) :=
  match m with
  | [] => [(cat, [(mon, v)])]
  | e :: t => if e.1 == cat then (cat, jsRecBump e.2 mon v) :: t else e :: jsRecBump2 t cat mon v

/-- `Set.add` (JS sets keep insertion order). -/
def jsSetAdd (l : List String) (m : String) : List String :=
  if l.contains m then l else l ++ [m]

/-- The three accumulators filled by the `transactions.forEach` pass of the
`BudgetModal` effect. -/
structure BudgetAccum where
  incomeByMonth : List (String × ℚ)
  expenseByMonthCategory : List (String × List (String × ℚ))
  allMonths : List String

def budgetStep (acc : BudgetAccum) (t : Transaction) : BudgetAccum :=
  let key := monthKey t.date
  let allM := jsSetAdd acc.allMonths key
  if t.type == .income && !t.isTransfer then
    ⟨jsRecBump acc.incomeByMonth key t.amount, acc.expenseByMonthCategory, allM⟩
  else if t.type == .expense && !t.isTransfer then
    ⟨acc.incomeByMonth, jsRecBump2 acc.expenseByMonthCategory t.category key t.amount, allM⟩
  else ⟨acc.incomeByMonth, acc.expenseByMonthCategory, allM⟩

def budgetAccum (transactions : List Transaction) : BudgetAccum :=
  transactions.foldl budgetStep ⟨[], [], []⟩

/-- Average monthly income: mean of the months with nonzero income, `0`
when there are none. -/
def avgMonthlyIncome (transactions : List Transaction) : ℚ :=
  let incomeValues := (budgetAccum transactions).incomeByMonth.map fun e => e.2
  let nonZeroIncomes := incomeValues.filter fun v => 0 < v
  if nonZeroIncomes.length = 0 then 0
  else nonZeroIncomes.sum / (nonZeroIncomes.length : ℚ)

/-- `Array.from(allMonthsSet).sort().reverse().slice(0, 12)` — the months
window the drafts are aligned to.  JS `sort()` without a comparator sorts
strings lexicographically. -/
def sortedMonths (transactions : List Transaction) : List String :=
  (jsSortBy strLe (budgetAccum transactions).allMonths).reverse.take 12

/-- `sortedMonths.map(m => expenseByMonthCategory[cat][m] || 0)`. -/
def monthlyValues (transactions : List Transaction) (cat : String) : List ℚ :=
  let acc := budgetAccum transactions
  (sortedMonths transactions).map fun m =>
    jsRecGetD ((jsRecGet acc.expenseByMonthCategory cat).getD []) m

/-- The divisor of the `average` statistic:
`sortedMonths.length || 1` (`1` only when there are no transactions). -/
def windowDenom (transactions : List Transaction) : ℚ :=
  if (sortedMonths transactions).length = 0 then 1
  else ((sortedMonths transactions).length : ℚ)

/-- `Math.max(...)` over a month vector (the vector of a category present
in the expense record is never empty, so the `[]` case is unreachable). -/
def listMaxQ : List ℚ → ℚ
  | [] => 0
  | h :: t => t.foldl max h

/-- `Math.min(...mv.filter(v => v > 0))` followed by the
`min === Infinity ? 0 : min` correction. -/
def listMinPosQ (l : List ℚ) : ℚ :=
  match l.filter fun v => 0 < v with
  | [] => 0
  | h :: t => t.foldl min h

/-- JS `Math.round` (half away from zero rounds toward `+∞`). -/
def jsRound (q : ℚ) : ℤ := ⌊q + 1 / 2⌋

def DISCRETIONARY_CATEGORIES : List String :=
  ["Eating Out", "Entertainment", "Shopping", "Personal Care", "Gifts", "Travel",
   "Subscriptions", "Alcohol & Bars", "Betting", "Ride Sharing/Food Delivery"]

def SAVINGS_CATEGORIES : List String :=
  ["Savings", "Investments", "Emergency Fund", "Sacco", "Money Market Fund",
   "Pension", "Financial Services/Investments"]

structure DraftBudget where
  category : String
  average : ℚ
  max : ℚ
  min : ℚ
  history : List ℚ
  frequency : String
  volatility : ℚ
  limit : ℚ
  strategy : String
  isDiscretionary : Bool
  isSavings : Bool
  isModified : Bool
deriving DecidableEq

/-- The draft built for one expense category (the body of the
`initialDrafts` map).  `sqrtQ` abstracts `Math.sqrt`, which feeds only the
`volatility` field. -/
def buildDraft (transactions : List Transaction) (existingBudgets : List Budget)
    (userProfile : Option UserProfile) (sqrtQ : ℚ → ℚ) (cat : String) : DraftBudget :=
  let w := sortedMonths transactions
  let mv := monthlyValues transactions cat
  let activeMonths := (mv.filter fun v => 0 < v).length
  let total := mv.sum
  let average := total / (if w.length = 0 then 1 else (w.length : ℚ))
  let mean := total / (mv.length : ℚ)
  let variance := (mv.map fun v => (v - mean) ^ 2).sum / (mv.length : ℚ)
  let volatility := if 0 < mean then sqrtQ variance / mean else 0
  let presenceRatio := (activeMonths : ℚ) / (if w.length = 0 then 1 else (w.length : ℚ))
  let frequency :=
    if presenceRatio < 2 / 5 then "Rare"
    else if presenceRatio < 4 / 5 then "Occasional"
    else "Monthly"
  let existing := existingBudgets.find? fun b => b.category == cat
  let isDiscretionary := DISCRETIONARY_CATEGORIES.contains cat
  let isSavings := SAVINGS_CATEGORIES.contains cat
  let sug0 : ℚ := ((jsRound average : ℤ) : ℚ)
  let strat0 : String := match existing with | some b => b.strategy | none => "maintain"
  let sugStrat : ℚ × String :=
    match existing, userProfile with
    | none, some profile =>
      if isSavings then
        if ["save_emergency", "invest", "buy_asset", "travel"].contains profile.primaryGoal then
          (((jsRound (average * (11 / 10)) : ℤ) : ℚ), "increase")
        else (sug0, "maintain")
      else if isDiscretionary then
        if ["save_emergency", "pay_debt", "control_spend"].contains profile.primaryGoal then
          (((jsRound (average * (4 / 5)) : ℤ) : ℚ), "aggressive")
        else if ["invest", "buy_asset"].contains profile.primaryGoal then
          (((jsRound (average * (9 / 10)) : ℤ) : ℚ), "moderate")
        else (sug0, strat0)
      else (sug0, strat0)
    | _, _ => (sug0, strat0)
  { category := cat
    average := ((jsRound average : ℤ) : ℚ)
    max := listMaxQ mv
    min := listMinPosQ mv
    history := mv
    frequency := frequency
    volatility := volatility
    limit := match existing with | some b => b.limit | none => sugStrat.1
    strategy := sugStrat.2
    isDiscretionary := isDiscretionary
    isSavings := isSavings
    isModified := false }

/-- The full `initialDrafts` computation: one draft per key of the expense
record, sorted by average descending (`.sort((a, b) => b.average -
a.average)`). -/
def computeDrafts (transactions : List Transaction) (existingBudgets : List Budget)
    (userProfile : Option UserProfile) (sqrtQ : ℚ → ℚ) : List DraftBudget :=
  let cats := (budgetAccum transactions).expenseByMonthCategory.map fun e => e.1
  jsSortBy (fun a b => decide (b.average ≤ a.average))
    (cats.map (buildDraft transactions existingBudgets userProfile sqrtQ))

/-! ### `BudgetModal.tsx`: impact analysis -/

structure ImpactAnalysis where
  plannedNetSavings : ℚ
  newTotalBudget : ℚ
  riskyCuts : Nat
  freedUpCash : ℚ
deriving DecidableEq

/-- `impactAnalysis` of `BudgetModal.tsx`. -/
def impactAnalysis (drafts : List DraftBudget) (avgIncome : ℚ) : ImpactAnalysis :=
  let currentTotalSpent := drafts.foldl (fun acc d => acc + (if d.isSavings then 0 else d.average)) 0
  let newTotalBudget := drafts.foldl (fun acc d => acc + (if d.isSavings then 0 else d.limit)) 0
  let plannedNetSavings :=
    if 0 < avgIncome then avgIncome - newTotalBudget else currentTotalSpent - newTotalBudget
  let freedUpCash := currentTotalSpent - newTotalBudget
  let riskyCuts := drafts.foldl (fun n d =>
    if !d.isSavings && decide (d.limit < d.min) && decide (d.volatility < 1 / 5) then n + 1
    else if !d.isSavings && decide (d.limit < d.average * (4 / 5)) && d.frequency == "Monthly" then n + 1
    else n) 0
  ⟨plannedNetSavings, newTotalBudget, riskyCuts, freedUpCash⟩

/-- Per-month expense total of one category (reference formulation of the
value accumulated into `expenseByMonthCategory`). -/
def expenseMonthTotal (transactions : List Transaction) (cat mon : String) : ℚ :=
  ((transactions.filter fun t =>
    t.type == .expense && !t.isTransfer && t.category == cat && monthKey t.date == mon).map
      fun t => t.amount).sum

/-! ### Concrete fixtures for witnesses and counterexamples -/

/-- The end-to-end scenario description from the spec (five spaces before
the date). -/
def uberDescription : String :=
  "DEBIT CARD TXN AT UBER * PENDING AMSTERDAM     17-11-2025 / 08:52:09 47-83-9408 16530408 4783940816530408"

def naivasTx : ParsedTransaction :=
  ⟨none, 100, none, .expense, "2025-01-01", "Lipa na M-PESA to Naivas"⟩

/-- A description matching no extraction rule. -/
def unknownTx : ParsedTransaction :=
  ⟨none, 100, none, .expense, "2025-01-01", "RANDOM STUFF"⟩

def unknownCache : Cache := [("RANDOM STUFF", ⟨"Random Shop", "Shopping", none⟩)]

def failRemote : Nat → RemoteOutcome := fun _ => .failure

/-- Merchant extracted by rule 1 but unknown to the category rule table. -/
def bobsTx : ParsedTransaction :=
  ⟨none, 50, none, .expense, "2025-01-02", "Lipa na M-PESA to Bobs Shack"⟩

def bobsRemote : Nat → RemoteOutcome :=
  fun _ => .success (some "Bobs Shack Limited") (some "Eating Out") none

def batchInput : List TransactionToEnrich := [⟨0, "PAY X", "PAY X", none⟩]

/-- A remote response whose item carries an index no caller supplied. -/
def rogueBatchRemote : Nat → BatchRemoteOutcome :=
  fun _ => .success [⟨7, "Mystery", "Other", none⟩]

def failBatchRemote : Nat → BatchRemoteOutcome := fun _ => .failure

def incomeOnlyTx : Transaction :=
  ⟨"t1", "a", "2025-02-10", "Employer", 1000, .income, "Income", "salary", false⟩

def foodTx : Transaction :=
  ⟨"t2", "a", "2025-01-05", "Naivas", 100, .expense, "Groceries", "food", false⟩

def c4txs : List Transaction := [incomeOnlyTx, foodTx]

def dRisky : DraftBudget :=
  ⟨"Rent", 100, 120, 80, [], "Monthly", 0, 50, "maintain", false, false, false⟩

def dSav : DraftBudget :=
  ⟨"Savings", 100, 120, 80, [], "Monthly", 0, 1, "maintain", false, true, false⟩

def sqrtZero : ℚ → ℚ := fun _ => 0

def sampleDraft : DraftBudget := buildDraft [foodTx] [] none sqrtZero "Groceries"

end ShillingSense

namespace ShillingSense

/-! ## Infrastructure lemmas -/

/-- A function into `Except Empty α` always succeeds. -/
lemma exceptEmpty_ok {α : Type} (fn : Nat → Except Empty α) (a : Nat) :
    ∃ v, fn a = .ok v := by
  match h : fn a with
  | .ok v => exact ⟨v, rfl⟩
  | .error e => exact e.elim

lemma retryWithBackoff_ok {ε α : Type} (fn : Nat → Except ε α) (r d a : Nat) (v : α)
    (h : fn a = .ok v) : retryWithBackoff fn r d a = ⟨.ok v, 1, []⟩ := by
  rw [retryWithBackoff, h]

lemma retryWithBackoff_error_trace {ε α : Type} (fn : Nat → Except ε α)
    (h : ∀ i, ∃ e, fn i = .error e) :
    ∀ (r d a : Nat), (retryWithBackoff fn r d a).attempts = r + 1 ∧
      (retryWithBackoff fn r d a).delays = (List.range r).map fun i => d * 2 ^ i := by
  intro r
  induction r with
  | zero =>
    intro d a
    obtain ⟨e, he⟩ := h a
    rw [retryWithBackoff, he]
    simp
  | succ n ih =>
    intro d a
    obtain ⟨e, he⟩ := h a
    rw [retryWithBackoff, he]
    obtain ⟨h1, h2⟩ := ih (d * 2) (a + 1)
    refine ⟨by simpa using h1, ?_⟩
    simp only [h2, List.range_succ_eq_map, List.map_cons, List.map_map]
    refine congrArg₂ _ (by ring) (List.map_congr_left fun i _ => ?_)
    simp [Function.comp, pow_succ]
    ring

/-- The fold used for `riskyCuts` counts the disjunction of its two
conditions. -/
lemma foldl_if_count {α : Type} (p q : α → Bool) (l : List α) (n : Nat) :
    l.foldl (fun n d => if p d then n + 1 else if q d then n + 1 else n) n
      = n + l.countP fun d => p d || q d := by
  induction l generalizing n with
  | nil => simp
  | cons a t ih =>
    simp only [List.foldl_cons, List.countP_cons, ih]
    cases hp : p a <;> cases hq : q a <;> simp [hp, hq] <;> omega

/-- Cache round-trip: `set` followed by `get` of the same key returns the
value just stored. -/
lemma getCachedEnrichment_set_self (cache : Cache) (key : String) (data : EnrichedData) :
    getCachedEnrichment (setCachedEnrichment cache key data) key = some data := by
  induction cache with
  | nil => simp [setCachedEnrichment, getCachedEnrichment]
  | cons e t ih =>
    by_cases h : e.1 == key
    · simp [setCachedEnrichment, getCachedEnrichment, h]
    · simp only [setCachedEnrichment, h]
      simpa [getCachedEnrichment, List.find?, h] using ih

/-- Layer-2 resolution: a rule-table hit returns immediately, with no
cache lookup, no remote attempt, and the cache untouched. -/
lemma enrich_ruleHit_eq (transaction : ParsedTransaction) (cache : Cache)
    (remote : Nat → RemoteOutcome) (c : String) (hr : ruleTableHit transaction = some c) :
    enrichTransaction transaction cache remote =
      ⟨⟨(extractHeuristicData transaction.description).merchant, transaction.amount, some c,
        transaction.type, transaction.date, transaction.description, none⟩, 0, 0, cache⟩ := by
  unfold enrichTransaction
  dsimp only
  split
  · next s hs => rw [hr] at hs; cases hs; rfl
  · next hs => rw [hr] at hs; cases hs

/-- Layer-3 resolution: with no rule-table hit, a cache hit is merged over
the transaction (heuristic merchant preferred when truthy) and no remote
attempt is made. -/
lemma enrich_cacheHit_eq (transaction : ParsedTransaction) (cache : Cache)
    (remote : Nat → RemoteOutcome) (cd : EnrichedData)
    (hr : ruleTableHit transaction = none)
    (hc : getCachedEnrichment cache (extractHeuristicData transaction.description).cacheKey
      = some cd) :
    enrichTransaction transaction cache remote =
      ⟨⟨some (if optTruthy (extractHeuristicData transaction.description).merchant
            then (extractHeuristicData transaction.description).merchant.getD ""
            else cd.merchant),
        transaction.amount, some cd.category, transaction.type, transaction.date,
        transaction.description, cd.enrichedInfo⟩, 1, 0, cache⟩ := by
  unfold enrichTransaction
  dsimp only
  split
  · next s hs => rw [hr] at hs; cases hs
  · split
    · next cd2 hcd2 => rw [hc] at hcd2; cases hcd2; rfl
    · next hcd2 => rw [hc] at hcd2; cases hcd2

/-- Layer-4, success: the remote result is merged over the transaction and
written to the cache under the heuristic cache key. -/
lemma enrich_remoteSuccess_eq (transaction : ParsedTransaction) (cache : Cache)
    (remote : Nat → RemoteOutcome) (m c : Option String) (info : Option EnrichedMerchantInfo)
    (hr : ruleTableHit transaction = none)
    (hc : getCachedEnrichment cache (extractHeuristicData transaction.description).cacheKey
      = none)
    (hrem : remote 0 = .success m c info) :
    enrichTransaction transaction cache remote =
      ⟨⟨m.orElse (fun _ => transaction.merchant), transaction.amount,
        c.orElse (fun _ => transaction.category), transaction.type, transaction.date,
        transaction.description, info⟩, 1, 1,
        setCachedEnrichment cache (extractHeuristicData transaction.description).cacheKey
          ⟨jsOrStr (m.orElse fun _ => transaction.merchant) "Unknown",
           jsOrStr (c.orElse fun _ => transaction.category) "Other", info⟩⟩ := by
  unfold enrichTransaction
  dsimp only
  split
  · next s hs => rw [hr] at hs; cases hs
  · split
    · next cd2 hcd2 => rw [hc] at hcd2; cases hcd2
    · have hv : enrichAttempt transaction (extractHeuristicData transaction.description).merchant
          (extractHeuristicData transaction.description).cacheKey cache remote 0 =
          .ok (⟨m.orElse (fun _ => transaction.merchant), transaction.amount,
            c.orElse (fun _ => transaction.category), transaction.type, transaction.date,
            transaction.description, info⟩,
            setCachedEnrichment cache (extractHeuristicData transaction.description).cacheKey
              ⟨jsOrStr (m.orElse fun _ => transaction.merchant) "Unknown",
               jsOrStr (c.orElse fun _ => transaction.category) "Other", info⟩) := by
        rw [enrichAttempt, hrem]
      rw [retryWithBackoff_ok _ _ _ _ _ hv]

/-- Layer-4, failure: the degraded result is returned after a single
attempt and the cache is left unchanged. -/
lemma enrich_remoteFailure_eq (transaction : ParsedTransaction) (cache : Cache)
    (remote : Nat → RemoteOutcome)
    (hr : ruleTableHit transaction = none)
    (hc : getCachedEnrichment cache (extractHeuristicData transaction.description).cacheKey
      = none)
    (hrem : remote 0 = .failure) :
    enrichTransaction transaction cache remote =
      ⟨⟨some (jsOrStr (extractHeuristicData transaction.description).merchant "Unknown"),
        transaction.amount, some "Other", transaction.type, transaction.date,
        transaction.description, none⟩, 1, 1, cache⟩ := by
  unfold enrichTransaction
  dsimp only
  split
  · next s hs => rw [hr] at hs; cases hs
  · split
    · next cd2 hcd2 => rw [hc] at hcd2; cases hcd2
    · have hv : enrichAttempt transaction (extractHeuristicData transaction.description).merchant
          (extractHeuristicData transaction.description).cacheKey cache remote 0 =
          .ok (⟨some (jsOrStr (extractHeuristicData transaction.description).merchant "Unknown"),
            transaction.amount, some "Other", transaction.type, transaction.date,
            transaction.description, none⟩, cache) := by
        rw [enrichAttempt, hrem]
      rw [retryWithBackoff_ok _ _ _ _ _ hv]

/-- With no rule-table hit and a cache miss, exactly one remote attempt is
made, whatever the remote outcome. -/
lemma enrich_remoteCalls_one (transaction : ParsedTransaction) (cache : Cache)
    (remote : Nat → RemoteOutcome)
    (hr : ruleTableHit transaction = none)
    (hc : getCachedEnrichment cache (extractHeuristicData transaction.description).cacheKey
      = none) :
    (enrichTransaction transaction cache remote).remoteCalls = 1 := by
  match hrem : remote 0 with
  | .success m c info => rw [enrich_remoteSuccess_eq transaction cache remote m c info hr hc hrem]
  | .failure => rw [enrich_remoteFailure_eq transaction cache remote hr hc hrem]

/-- A truthy optional string is `some` of its non-empty default-stripped
value. -/
lemma optTruthy_getD (o : Option String) (h : optTruthy o = true) : some (o.getD "") = o := by
  cases o with
  | none => cases h
  | some s => rfl

/-- `some (a || b) = a` when `a` is truthy. -/
lemma jsOrStr_truthy (o : Option String) (b : String) (h : optTruthy o = true) :
    some (jsOrStr o b) = o := by
  cases o with
  | none => cases h
  | some s =>
    have hs : s ≠ "" := by simpa [optTruthy] using h
    simp [jsOrStr, hs]

/-! ### String order and sorting infrastructure (for the months window) -/

lemma charEq_of_toNat_eq {c d : Char} (h : c.toNat = d.toNat) : c = d :=
  Char.eq_of_val_eq (UInt32.ext h)

lemma listLtB_asymm : ∀ (a b : List Char), listLtB a b = true → listLtB b a = false := by
  intro a
  induction a with
  | nil =>
    intro b h
    cases b with
    | nil => cases h
    | cons d u => rfl
  | cons x xs ih =>
    intro b h
    cases b with
    | nil => cases h
    | cons d u =>
      simp only [listLtB] at h ⊢
      by_cases hxd : x.toNat < d.toNat
      · have h2 : ¬ d.toNat < x.toNat := by omega
        rw [if_neg h2, if_pos hxd]
      · by_cases hdx : d.toNat < x.toNat
        · simp [hxd, hdx] at h
        · rw [if_neg hdx, if_neg hxd]
          apply ih
          simpa [hxd, hdx] using h

lemma listLtB_trans : ∀ (a b c : List Char),
    listLtB a b = true → listLtB b c = true → listLtB a c = true := by
  intro a
  induction a with
  | nil =>
    intro b c h1 h2
    cases b with
    | nil => cases h1
    | cons d u =>
      cases c with
      | nil => cases h2
      | cons e v => rfl
  | cons x xs ih =>
    intro b c h1 h2
    cases b with
    | nil => cases h1
    | cons d u =>
      cases c with
      | nil => cases h2
      | cons e v =>
        simp only [listLtB] at h1 h2 ⊢
        by_cases hxd : x.toNat < d.toNat
        · by_cases hde : d.toNat < e.toNat
          · rw [if_pos (by omega : x.toNat < e.toNat)]
          · by_cases hed : e.toNat < d.toNat
            · simp [hde, hed] at h2
            · rw [if_pos (by omega : x.toNat < e.toNat)]
        · by_cases hdx : d.toNat < x.toNat
          · simp [hxd, hdx] at h1
          · by_cases hde : d.toNat < e.toNat
            · rw [if_pos (by omega : x.toNat < e.toNat)]
            · by_cases hed : e.toNat < d.toNat
              · simp [hde, hed] at h2
              · have h1' : listLtB xs u = true := by simpa [hxd, hdx] using h1
                have h2' : listLtB u v = true := by simpa [hde, hed] using h2
                rw [if_neg (by omega : ¬ x.toNat < e.toNat),
                  if_neg (by omega : ¬ e.toNat < x.toNat)]
                exact ih u v h1' h2'

lemma listLtB_connex : ∀ (a b : List Char),
    listLtB a b = false → listLtB b a = false → a = b := by
  intro a
  induction a with
  | nil =>
    intro b h1 _
    cases b with
    | nil => rfl
    | cons d u => simp [listLtB] at h1
  | cons x xs ih =>
    intro b h1 h2
    cases b with
    | nil => simp [listLtB] at h2
    | cons d u =>
      simp only [listLtB] at h1 h2
      by_cases hxd : x.toNat < d.toNat
      · simp [hxd] at h1
      · by_cases hdx : d.toNat < x.toNat
        · simp [hdx] at h2
        · have hxs : listLtB xs u = false := by simpa [hxd, hdx] using h1
          have hu : listLtB u xs = false := by simpa [hxd, hdx] using h2
          rw [charEq_of_toNat_eq (by omega : x.toNat = d.toNat), ih u hxs hu]

lemma strLe_iff (a b : String) : strLe a b = true ↔ listLtB b.data a.data = false := by
  simp [strLe, strLt]

lemma strLe_total (a b : String) : strLe a b = true ∨ strLe b a = true := by
  cases hlt : listLtB b.data a.data with
  | false => exact Or.inl ((strLe_iff a b).mpr hlt)
  | true => exact Or.inr ((strLe_iff b a).mpr (listLtB_asymm _ _ hlt))

lemma strLe_trans (a b c : String) (h1 : strLe a b = true) (h2 : strLe b c = true) :
    strLe a c = true := by
  rw [strLe_iff] at h1 h2 ⊢
  cases hca : listLtB c.data a.data with
  | false => rfl
  | true =>
    exfalso
    cases hbc : listLtB b.data c.data with
    | false =>
      have hdata : b.data = c.data := listLtB_connex _ _ hbc h2
      rw [← hdata] at hca
      rw [h1] at hca
      cases hca
    | true =>
      have := listLtB_trans _ _ _ hbc hca
      rw [h1] at this
      cases this

lemma strLt_of_le_of_ne (a b : String) (h : strLe a b = true) (hne : a ≠ b) :
    strLt a b = true := by
  rw [strLe_iff] at h
  cases hx : listLtB a.data b.data with
  | true => simpa [strLt] using hx
  | false =>
    exfalso
    apply hne
    have hdata := listLtB_connex _ _ hx h
    calc a = ⟨a.data⟩ := rfl
    _ = ⟨b.data⟩ := by rw [hdata]
    _ = b := rfl

lemma jsOrderedInsert_perm {α : Type} (le : α → α → Bool) (a : α) (l : List α) :
    List.Perm (jsOrderedInsert le a l) (a :: l) := by
  induction l with
  | nil => exact List.Perm.refl _
  | cons b t ih =>
    simp only [jsOrderedInsert]
    split
    · exact List.Perm.refl _
    · exact (ih.cons b).trans (List.Perm.swap a b t)

lemma jsSortBy_perm {α : Type} (le : α → α → Bool) (l : List α) :
    List.Perm (jsSortBy le l) l := by
  induction l with
  | nil => exact List.Perm.refl _
  | cons a t ih => exact (jsOrderedInsert_perm le a (jsSortBy le t)).trans (ih.cons a)

lemma jsOrderedInsert_pairwise {α : Type} (le : α → α → Bool)
    (htot : ∀ x y, le x y = true ∨ le y x = true)
    (htrans : ∀ x y z, le x y = true → le y z = true → le x z = true)
    (a : α) (l : List α) (hl : List.Pairwise (fun x y => le x y = true) l) :
    List.Pairwise (fun x y => le x y = true) (jsOrderedInsert le a l) := by
  induction l with
  | nil => simp [jsOrderedInsert]
  | cons b t ih =>
    rcases List.pairwise_cons.mp hl with ⟨hbt, ht⟩
    simp only [jsOrderedInsert]
    split
    · next hab =>
      refine List.pairwise_cons.mpr ⟨?_, hl⟩
      intro x hx
      rcases List.mem_cons.mp hx with rfl | hx2
      · exact hab
      · exact htrans a b x hab (hbt x hx2)
    · next hab =>
      have hba : le b a = true := by
        rcases htot a b with h | h
        · exact absurd h hab
        · exact h
      refine List.pairwise_cons.mpr ⟨?_, ih ht⟩
      intro x hx
      rcases List.mem_cons.mp ((jsOrderedInsert_perm le a t).mem_iff.mp hx) with rfl | hx2
      · exact hba
      · exact hbt x hx2

lemma jsSortBy_pairwise {α : Type} (le : α → α → Bool)
    (htot : ∀ x y, le x y = true ∨ le y x = true)
    (htrans : ∀ x y z, le x y = true → le y z = true → le x z = true)
    (l : List α) : List.Pairwise (fun x y => le x y = true) (jsSortBy le l) := by
  induction l with
  | nil => simp [jsSortBy]
  | cons a t ih => exact jsOrderedInsert_pairwise le htot htrans a (jsSortBy le t) ih

/-! ### Month-set accumulation lemmas -/

lemma budgetStep_allMonths (acc : BudgetAccum) (t : Transaction) :
    (budgetStep acc t).allMonths = jsSetAdd acc.allMonths (monthKey t.date) := by
  unfold budgetStep
  dsimp only
  split
  · rfl
  · split <;> rfl

lemma mem_jsSetAdd {l : List String} {k m : String} : m ∈ jsSetAdd l k ↔ m ∈ l ∨ m = k := by
  unfold jsSetAdd
  split
  · next h =>
    constructor
    · exact Or.inl
    · rintro (hm | rfl)
      · exact hm
      · simpa using h
  · simp

lemma nodup_jsSetAdd {l : List String} {k : String} (h : l.Nodup) : (jsSetAdd l k).Nodup := by
  unfold jsSetAdd
  split
  · exact h
  · next hk =>
    have : k ∉ l := by simpa using hk
    simp [List.nodup_append, h, this]

lemma allMonths_foldl_mem (txs : List Transaction) : ∀ (acc : BudgetAccum) (m : String),
    m ∈ (txs.foldl budgetStep acc).allMonths ↔
      m ∈ acc.allMonths ∨ ∃ t ∈ txs, monthKey t.date = m := by
  induction txs with
  | nil =>
    intro acc m
    simp
  | cons t ts ih =>
    intro acc m
    rw [List.foldl_cons, ih, budgetStep_allMonths, mem_jsSetAdd]
    constructor
    · rintro ((hm | rfl) | ⟨t2, ht2, rfl⟩)
      · exact Or.inl hm
      · exact Or.inr ⟨t, List.mem_cons_self t ts, rfl⟩
      · exact Or.inr ⟨t2, List.mem_cons_of_mem t ht2, rfl⟩
    · rintro (hm | ⟨t2, ht2, rfl⟩)
      · exact Or.inl (Or.inl hm)
      · rcases List.mem_cons.mp ht2 with rfl | h2
        · exact Or.inl (Or.inr rfl)
        · exact Or.inr ⟨t2, h2, rfl⟩

lemma mem_allMonths (txs : List Transaction) (m : String) :
    m ∈ (budgetAccum txs).allMonths ↔ ∃ t ∈ txs, monthKey t.date = m := by
  unfold budgetAccum
  rw [allMonths_foldl_mem]
  simp

lemma allMonths_foldl_nodup (txs : List Transaction) : ∀ (acc : BudgetAccum),
    acc.allMonths.Nodup → (txs.foldl budgetStep acc).allMonths.Nodup := by
  induction txs with
  | nil => intro acc h; exact h
  | cons t ts ih =>
    intro acc h
    rw [List.foldl_cons]
    exact ih _ (by rw [budgetStep_allMonths]; exact nodup_jsSetAdd h)

lemma allMonths_nodup (txs : List Transaction) : (budgetAccum txs).allMonths.Nodup :=
  allMonths_foldl_nodup txs ⟨[], [], []⟩ List.nodup_nil

/-! ### Expense-record accumulation lemmas -/

lemma jsRecGet_cons {α : Type} (ek : String) (ev : α) (t : List (String × α)) (k : String) :
    jsRecGet ((ek, ev) :: t) k = if ek = k then some ev else jsRecGet t k := by
  by_cases h : ek = k
  · rw [if_pos h]
    simp only [jsRecGet]
    rw [List.find?_cons_of_pos _ (by simpa using h)]
    rfl
  · rw [if_neg h]
    simp only [jsRecGet]
    rw [List.find?_cons_of_neg _ (by simpa using h)]

lemma jsRecGetD_cons (ek : String) (ev : ℚ) (t : List (String × ℚ)) (k : String) :
    jsRecGetD ((ek, ev) :: t) k = if ek = k then ev else jsRecGetD t k := by
  simp only [jsRecGetD, jsRecGet_cons]
  by_cases h : ek = k <;> simp [h]

lemma jsRecBump_cons (ek : String) (ev : ℚ) (t : List (String × ℚ)) (k : String) (v : ℚ) :
    jsRecBump ((ek, ev) :: t) k v =
      if ek = k then (k, ev + v) :: t else (ek, ev) :: jsRecBump t k v := by
  simp only [jsRecBump]
  by_cases h : ek = k <;> simp [h]

lemma jsRecBump2_cons (ek : String) (ev : List (String × ℚ))
    (t : List (String × List (String × ℚ))) (cat mon : String) (v : ℚ) :
    jsRecBump2 ((ek, ev) :: t) cat mon v =
      if ek = cat then (cat, jsRecBump ev mon v) :: t
      else (ek, ev) :: jsRecBump2 t cat mon v := by
  simp only [jsRecBump2]
  by_cases h : ek = cat <;> simp [h]

lemma jsRecGetD_bump (l : List (String × ℚ)) (k : String) (v : ℚ) (k2 : String) :
    jsRecGetD (jsRecBump l k v) k2 = jsRecGetD l k2 + if k2 = k then v else 0 := by
  induction l with
  | nil =>
    show jsRecGetD [(k, v)] k2 = jsRecGetD [] k2 + _
    rw [jsRecGetD_cons]
    by_cases h : k2 = k
    · rw [if_pos h.symm, if_pos h]
      simp [jsRecGetD, jsRecGet]
    · rw [if_neg (fun hh => h hh.symm), if_neg h]
      simp
  | cons e t ih =>
    obtain ⟨ek, ev⟩ := e
    rw [jsRecBump_cons]
    by_cases he : ek = k
    · rw [if_pos he]
      by_cases h2 : k2 = k
      · rw [jsRecGetD_cons, if_pos h2.symm, jsRecGetD_cons, he, if_pos h2.symm, if_pos h2]
      · rw [jsRecGetD_cons, if_neg (fun hh => h2 hh.symm), jsRecGetD_cons, he,
          if_neg (fun hh => h2 hh.symm), if_neg h2]
        simp
    · rw [if_neg he]
      by_cases h2 : ek = k2
      · rw [jsRecGetD_cons, if_pos h2, jsRecGetD_cons, if_pos h2,
          if_neg (fun hh => he (h2.trans hh))]
        simp
      · rw [jsRecGetD_cons, if_neg h2, jsRecGetD_cons, if_neg h2]
        exact ih

lemma eLookup_bump2 (m : List (String × List (String × ℚ))) (cat mon : String) (v : ℚ)
    (cat2 mon2 : String) :
    jsRecGetD ((jsRecGet (jsRecBump2 m cat mon v) cat2).getD []) mon2
      = jsRecGetD ((jsRecGet m cat2).getD []) mon2
        + if cat2 = cat ∧ mon2 = mon then v else 0 := by
  induction m with
  | nil =>
    show jsRecGetD ((jsRecGet [(cat, [(mon, v)])] cat2).getD []) mon2 = _
    rw [jsRecGet_cons]
    by_cases h : cat2 = cat
    · rw [if_pos h.symm]
      simp only [Option.getD_some]
      rw [jsRecGetD_cons]
      by_cases h2 : mon2 = mon
      · rw [if_pos h2.symm, if_pos ⟨h, h2⟩]
        simp [jsRecGetD, jsRecGet]
      · rw [if_neg (fun hh => h2 hh.symm), if_neg (fun hh => h2 hh.2)]
        simp [jsRecGetD, jsRecGet]
    · rw [if_neg (fun hh => h hh.symm), if_neg (fun hh => h hh.1)]
      simp [jsRecGet]
  | cons e t ih =>
    obtain ⟨ek, ev⟩ := e
    rw [jsRecBump2_cons]
    by_cases he : ek = cat
    · subst he
      rw [if_pos rfl]
      by_cases h2 : cat2 = ek
      · rw [jsRecGet_cons, if_pos h2.symm, jsRecGet_cons, if_pos h2.symm]
        simp only [Option.getD_some]
        rw [jsRecGetD_bump]
        by_cases h3 : mon2 = mon
        · rw [if_pos h3, if_pos ⟨h2, h3⟩]
        · rw [if_neg h3, if_neg (fun hh => h3 hh.2)]
      · rw [jsRecGet_cons, if_neg (fun hh => h2 hh.symm),
          jsRecGet_cons, if_neg (fun hh => h2 hh.symm), if_neg (fun hh => h2 hh.1)]
        simp
    · rw [if_neg he]
      by_cases h2 : ek = cat2
      · rw [jsRecGet_cons, if_pos h2, jsRecGet_cons, if_pos h2,
          if_neg (fun hh => he (h2.trans hh.1))]
        simp
      · rw [jsRecGet_cons, if_neg h2, jsRecGet_cons, if_neg h2]
        exact ih

lemma eLookup_budgetStep (acc : BudgetAccum) (t : Transaction) (cat mon : String) :
    jsRecGetD ((jsRecGet (budgetStep acc t).expenseByMonthCategory cat).getD []) mon
      = jsRecGetD ((jsRecGet acc.expenseByMonthCategory cat).getD []) mon
        + if t.type == TransactionType.expense && !t.isTransfer
            && t.category == cat && monthKey t.date == mon
          then t.amount else 0 := by
  unfold budgetStep
  dsimp only
  split
  · next hinc =>
    have hty : t.type = TransactionType.income := by
      cases hx : t.type == TransactionType.income
      · rw [hx] at hinc; cases hinc
      · exact eq_of_beq hx
    simp [hty]
  · split
    · next hexp =>
      rw [eLookup_bump2]
      congr 1
      have h1 : (t.type == TransactionType.expense) = true :=
        (Bool.and_eq_true_iff.mp hexp).1
      have h2 : (!t.isTransfer) = true := (Bool.and_eq_true_iff.mp hexp).2
      by_cases hc : t.category = cat
      · by_cases hm : monthKey t.date = mon
        · rw [if_pos ⟨hc.symm, hm.symm⟩, if_pos]
          rw [h1, h2]
          simp [hc, hm]
        · rw [if_neg (fun hh => hm hh.2.symm), if_neg]
          intro hh
          have : (monthKey t.date == mon) = true := by
            rcases Bool.and_eq_true_iff.mp hh with ⟨_, hmm⟩
            exact hmm
          exact hm (eq_of_beq this)
      · rw [if_neg (fun hh => hc hh.1.symm), if_neg]
        intro hh
        rcases Bool.and_eq_true_iff.mp hh with ⟨hh2, _⟩
        rcases Bool.and_eq_true_iff.mp hh2 with ⟨_, hcc⟩
        exact hc (eq_of_beq hcc)
    · next hexp =>
      have hff : (t.type == TransactionType.expense && !t.isTransfer) = false := by
        cases hx : t.type == TransactionType.expense && !t.isTransfer
        · rfl
        · exact absurd hx hexp
      rcases Bool.and_eq_false_iff.mp hff with hx | hx
      · simp [hx]
      · simp [hx]

lemma eLookup_foldl (txs : List Transaction) : ∀ (acc : BudgetAccum) (cat mon : String),
    jsRecGetD ((jsRecGet (txs.foldl budgetStep acc).expenseByMonthCategory cat).getD []) mon
      = jsRecGetD ((jsRecGet acc.expenseByMonthCategory cat).getD []) mon
        + expenseMonthTotal txs cat mon := by
  induction txs with
  | nil =>
    intro acc cat mon
    simp [expenseMonthTotal]
  | cons t ts ih =>
    intro acc cat mon
    rw [List.foldl_cons, ih, eLookup_budgetStep]
    unfold expenseMonthTotal
    rw [List.filter_cons]
    split
    · simp only [List.map_cons, List.sum_cons]
      ring
    · ring

lemma monthlyValues_eq (txs : List Transaction) (cat : String) :
    monthlyValues txs cat = (sortedMonths txs).map fun mon => expenseMonthTotal txs cat mon := by
  unfold monthlyValues
  apply List.map_congr_left
  intro mon _
  show jsRecGetD ((jsRecGet (budgetAccum txs).expenseByMonthCategory cat).getD []) mon
    = expenseMonthTotal txs cat mon
  unfold budgetAccum
  rw [eLookup_foldl]
  simp [jsRecGetD, jsRecGet]

/-! ### Rounding and draft-shape lemmas -/

/-- `Math.round` lands within `1/2` of its argument. -/
lemma jsRound_cast_sub_le (q : ℚ) : |((jsRound q : ℤ) : ℚ) - q| ≤ 1 / 2 := by
  rw [abs_le]
  constructor
  · have h := Int.lt_floor_add_one (q + 1 / 2)
    simp only [jsRound]
    push_cast at h ⊢
    linarith
  · have h := Int.floor_le (q + 1 / 2)
    simp only [jsRound]
    push_cast at h ⊢
    linarith

/-- With an existing budget for the category, the draft's limit is the
budget's limit verbatim. -/
lemma buildDraft_limit_existing (transactions : List Transaction)
    (existingBudgets : List Budget) (userProfile : Option UserProfile) (sqrtQ : ℚ → ℚ)
    (cat : String) (b : Budget)
    (hfind : existingBudgets.find? (fun bb => bb.category == cat) = some b) :
    (buildDraft transactions existingBudgets userProfile sqrtQ cat).limit = b.limit := by
  unfold buildDraft
  dsimp only
  rw [hfind]

/-- With no existing budget, the draft's limit is one of the four rounded
forms (the plain rounded average, the 10% increase, or the 20%/10% cuts of
the exact average). -/
lemma buildDraft_limit_fresh (transactions : List Transaction)
    (existingBudgets : List Budget) (userProfile : Option UserProfile) (sqrtQ : ℚ → ℚ)
    (cat : String)
    (hfind : existingBudgets.find? (fun bb => bb.category == cat) = none) :
    (buildDraft transactions existingBudgets userProfile sqrtQ cat).limit
      = ((jsRound ((monthlyValues transactions cat).sum / windowDenom transactions) : ℤ) : ℚ)
    ∨ (buildDraft transactions existingBudgets userProfile sqrtQ cat).limit
      = ((jsRound ((monthlyValues transactions cat).sum / windowDenom transactions
          * (11 / 10)) : ℤ) : ℚ)
    ∨ (buildDraft transactions existingBudgets userProfile sqrtQ cat).limit
      = ((jsRound ((monthlyValues transactions cat).sum / windowDenom transactions
          * (4 / 5)) : ℤ) : ℚ)
    ∨ (buildDraft transactions existingBudgets userProfile sqrtQ cat).limit
      = ((jsRound ((monthlyValues transactions cat).sum / windowDenom transactions
          * (9 / 10)) : ℤ) : ℚ) := by
  unfold buildDraft
  dsimp only
  rw [hfind]
  cases userProfile with
  | none => exact Or.inl rfl
  | some p =>
    dsimp only
    unfold windowDenom
    repeat' split
    all_goals first
      | exact Or.inl rfl
      | exact Or.inr (Or.inl rfl)
      | exact Or.inr (Or.inr (Or.inl rfl))
      | exact Or.inr (Or.inr (Or.inr rfl))

/-! ## C7 — retry policy -/

/-- C7 counterexample: with the default arguments, `retryWithBackoff` of a
persistently failing function makes 4 attempts, not 3 (1 initial + 3
retries); and a persistently failing remote enrichment is attempted
exactly once before the degraded result is produced — the `catch` inside
the wrapped closure converts the failure into a normal value, so the
wrapper never re-attempts (the claimed "re-attempted up to the default
bound" does not happen). -/
theorem retryPolicy_claim_counterexample :
    (retryWithBackoff (fun _ => (Except.error () : Except Unit Unit))
      defaultRetries defaultDelay 0).attempts = 4 ∧
    (enrichTransaction unknownTx [] failRemote).remoteCalls = 1 ∧
    (enrichTransaction unknownTx [] failRemote).result.category = some "Other" := by
  refine ⟨?_, ?_, ?_⟩
  · have := retryWithBackoff_error_trace (fun _ => (Except.error () : Except Unit Unit))
      (fun _ => ⟨(), rfl⟩) defaultRetries defaultDelay 0
    simpa [defaultRetries] using this.1
  · decide
  · decide

/-- C7 (amended): `retryWithBackoff` performs one initial attempt plus up
to `retries` re-attempts — `retries + 1` attempts in total when every
attempt fails — with the sleep delays doubling from `delay`; the defaults
are `retries = 3` (hence up to 4 attempts) and `delay = 500` ms.  However,
the closures wrapped for enrichment, batch enrichment and
category-mismatch validation catch their own errors and resolve with a
fallback value, so for those calls the wrapper observes success on the
first attempt and never re-attempts; validation additionally passes
`retries = 1`. -/
theorem retryPolicy_amended (ε α : Type) (fn : Nat → Except ε α) (d a : Nat) :
    (∀ r, (∀ i, ∃ e, fn i = .error e) →
      (retryWithBackoff fn r d a).attempts = r + 1 ∧
      (retryWithBackoff fn r d a).delays = (List.range r).map fun i => d * 2 ^ i)
    ∧ defaultRetries = 3 ∧ defaultDelay = 500
    ∧ (∀ transaction cache remote,
        (enrichTransaction transaction cache remote).remoteCalls ≤ 1)
    ∧ (∀ transactions cache remote,
        (batchEnrichTransactions transactions cache remote).remoteCalls ≤ 1)
    ∧ (∀ description newCategory vc remote,
        (validateCategoryMismatch description newCategory vc remote).remoteCalls ≤ 1) := by
  refine ⟨fun r h => retryWithBackoff_error_trace fn h r d a, rfl, rfl, ?_, ?_, ?_⟩
  · intro transaction cache remote
    unfold enrichTransaction
    dsimp only
    split
    · exact Nat.zero_le 1
    · split
      · exact Nat.zero_le 1
      · obtain ⟨v, hv⟩ := exceptEmpty_ok
          (enrichAttempt transaction (extractHeuristicData transaction.description).merchant
            (extractHeuristicData transaction.description).cacheKey cache remote) 0
        rw [retryWithBackoff_ok _ _ _ _ _ hv]
  · intro transactions cache remote
    cases transactions with
    | nil => simp [batchEnrichTransactions]
    | cons t0 ts =>
      unfold batchEnrichTransactions
      dsimp only
      obtain ⟨v, hv⟩ := exceptEmpty_ok (batchAttempt (t0 :: ts) cache remote) 0
      rw [retryWithBackoff_ok _ _ _ _ _ hv]
  · intro description newCategory vc remote
    unfold validateCategoryMismatch
    dsimp only
    split
    · exact Nat.zero_le 1
    · split
      · exact Nat.zero_le 1
      · obtain ⟨v, hv⟩ := exceptEmpty_ok
          (validateAttempt (strToLower (jsTrim description) ++ "|" ++ strToLower newCategory)
            vc remote) 0
        rw [retryWithBackoff_ok _ _ _ _ _ hv]

/-- C7 witness: the amended theorem applied at concrete arguments. -/
theorem retryPolicy_amended_witness :
    (retryWithBackoff (fun _ => (Except.error () : Except Unit Unit)) 2 500 0).attempts = 3 ∧
    (retryWithBackoff (fun _ => (Except.error () : Except Unit Unit)) 2 500 0).delays
      = [500, 1000] := by
  obtain ⟨h1, h2⟩ :=
    (retryPolicy_amended Unit Unit (fun _ => .error ()) 500 0).1 2 fun _ => ⟨(), rfl⟩
  exact ⟨h1, by simpa using h2⟩

/-! ## C8 — impact analysis risky-cut counting -/

/-- C8: `riskyCuts` counts exactly the drafts satisfying one of the two
risk conditions; a non-savings draft with `limit < min` and
`volatility < 0.2` is always counted, and a draft with `isSavings = true`
never is, regardless of its limit. -/
theorem impactAnalysis_riskyCuts_spec (drafts : List DraftBudget) (income : ℚ) :
    (impactAnalysis drafts income).riskyCuts =
      drafts.countP (fun d =>
        (!d.isSavings && decide (d.limit < d.min) && decide (d.volatility < 1 / 5)) ||
        (!d.isSavings && decide (d.limit < d.average * (4 / 5)) && d.frequency == "Monthly"))
    ∧ (∀ d : DraftBudget, d.isSavings = false → d.limit < d.min → d.volatility < 1 / 5 →
        ((!d.isSavings && decide (d.limit < d.min) && decide (d.volatility < 1 / 5)) ||
         (!d.isSavings && decide (d.limit < d.average * (4 / 5)) && d.frequency == "Monthly"))
          = true)
    ∧ (∀ d : DraftBudget, d.isSavings = true →
        ((!d.isSavings && decide (d.limit < d.min) && decide (d.volatility < 1 / 5)) ||
         (!d.isSavings && decide (d.limit < d.average * (4 / 5)) && d.frequency == "Monthly"))
          = false) := by
  refine ⟨?_, ?_, ?_⟩
  · show drafts.foldl _ 0 = _
    rw [foldl_if_count]
    exact Nat.zero_add _
  · intro d h1 h2 h3
    simp [h1, h2]
    exact Or.inl (by linarith)
  · intro d h
    simp [h]

/-- C8 witness: a non-savings draft cut below its stable minimum is
counted once; the savings draft with an even lower limit is not. -/
theorem impactAnalysis_riskyCuts_spec_witness :
    (impactAnalysis [dRisky, dSav] 1000).riskyCuts = 1 ∧
    ((!dSav.isSavings && decide (dSav.limit < dSav.min) && decide (dSav.volatility < 1 / 5)) ||
     (!dSav.isSavings && decide (dSav.limit < dSav.average * (4 / 5)) && dSav.frequency == "Monthly"))
      = false := by
  constructor
  · rw [(impactAnalysis_riskyCuts_spec [dRisky, dSav] 1000).1]
    norm_num [dRisky, dSav, List.countP_cons]
  · exact (impactAnalysis_riskyCuts_spec [dRisky, dSav] 1000).2.2 dSav rfl

/-! ## C1 — cascade short-circuit on the local layers -/

/-- C1: a rule-table hit on the heuristically extracted merchant returns
`{merchant: candidate, category: hit}` immediately — zero cache reads,
zero remote attempts, cache untouched; otherwise a cache hit merges the
cached `{merchant, category, enrichedInfo}` over the transaction,
preferring the truthy heuristic merchant, with zero remote attempts. -/
theorem enrich_localLayers_spec (transaction : ParsedTransaction) (cache : Cache)
    (remote : Nat → RemoteOutcome) :
    (∀ c, ruleTableHit transaction = some c →
      enrichTransaction transaction cache remote =
        ⟨⟨(extractHeuristicData transaction.description).merchant, transaction.amount, some c,
          transaction.type, transaction.date, transaction.description, none⟩, 0, 0, cache⟩)
    ∧ (∀ cd, ruleTableHit transaction = none →
        getCachedEnrichment cache (extractHeuristicData transaction.description).cacheKey
          = some cd →
        enrichTransaction transaction cache remote =
          ⟨⟨some (if optTruthy (extractHeuristicData transaction.description).merchant
                then (extractHeuristicData transaction.description).merchant.getD ""
                else cd.merchant),
            transaction.amount, some cd.category, transaction.type, transaction.date,
            transaction.description, cd.enrichedInfo⟩, 1, 0, cache⟩) :=
  ⟨fun c hr => enrich_ruleHit_eq transaction cache remote c hr,
   fun cd hr hc => enrich_cacheHit_eq transaction cache remote cd hr hc⟩

/-- C1 witness: `"Lipa na M-PESA to Naivas"` resolves at the rule table
(`Groceries`), `"RANDOM STUFF"` at the cache. -/
theorem enrich_localLayers_spec_witness :
    enrichTransaction naivasTx [] failRemote =
      ⟨⟨some "Naivas", naivasTx.amount, some "Groceries", naivasTx.type, naivasTx.date,
        naivasTx.description, none⟩, 0, 0, []⟩ ∧
    enrichTransaction unknownTx unknownCache failRemote =
      ⟨⟨some "Random Shop", unknownTx.amount, some "Shopping", unknownTx.type, unknownTx.date,
        unknownTx.description, none⟩, 1, 0, unknownCache⟩ := by
  constructor
  · exact (enrich_localLayers_spec naivasTx [] failRemote).1 "Groceries" (by decide)
  · exact (enrich_localLayers_spec unknownTx unknownCache failRemote).2
      ⟨"Random Shop", "Shopping", none⟩ (by decide) (by decide)

/-! ## C2 — degraded result on remote failure -/

/-- C2: when the cascade reaches the remote layer and the remote fails,
`enrichTransaction` returns the degraded
`{merchant: candidate-or-"Unknown", category: "Other"}` — it returns a
value rather than propagating the failure (the embedding is total because
the `catch` handles every error) — and the cache is unchanged (only the
success branch calls `setCachedEnrichment`). -/
theorem enrich_remoteFailure_degraded (transaction : ParsedTransaction) (cache : Cache)
    (remote : Nat → RemoteOutcome)
    (hr : ruleTableHit transaction = none)
    (hc : getCachedEnrichment cache (extractHeuristicData transaction.description).cacheKey
      = none)
    (hrem : remote 0 = .failure) :
    enrichTransaction transaction cache remote =
      ⟨⟨some (jsOrStr (extractHeuristicData transaction.description).merchant "Unknown"),
        transaction.amount, some "Other", transaction.type, transaction.date,
        transaction.description, none⟩, 1, 1, cache⟩ :=
  enrich_remoteFailure_eq transaction cache remote hr hc hrem

/-- C2 witness: an unmatched description with an empty cache and a failing
remote yields `{merchant: "Unknown", category: "Other"}` and an unchanged
(empty) cache. -/
theorem enrich_remoteFailure_degraded_witness :
    enrichTransaction unknownTx [] failRemote =
      ⟨⟨some "Unknown", unknownTx.amount, some "Other", unknownTx.type, unknownTx.date,
        unknownTx.description, none⟩, 1, 1, []⟩ :=
  enrich_remoteFailure_degraded unknownTx [] failRemote (by decide) (by decide) rfl

/-! ## C3 — idempotence of `enrich` -/

/-- C3 counterexample: the claimed idempotence fails.  For
`"Lipa na M-PESA to Bobs Shack"` (heuristic merchant `"Bobs Shack"`, no
rule-table hit, empty cache) with a remote that successfully returns
merchant `"Bobs Shack Limited"`, the first call reports the remote
merchant while the second call — served from the now-populated cache —
prefers the heuristic merchant, so the two calls do not yield identical
merchants. -/
theorem enrich_idempotence_counterexample :
    (enrichTransaction bobsTx [] bobsRemote).result.merchant = some "Bobs Shack Limited" ∧
    (enrichTransaction bobsTx
        (enrichTransaction bobsTx [] bobsRemote).cache bobsRemote).result.merchant
      = some "Bobs Shack" ∧
    (enrichTransaction bobsTx [] bobsRemote).result.merchant ≠
      (enrichTransaction bobsTx
        (enrichTransaction bobsTx [] bobsRemote).cache bobsRemote).result.merchant := by
  refine ⟨?_, ?_, ?_⟩ <;> decide

/-- C3 (amended): if the first call resolves locally (no remote attempt),
the second call is identical and also makes no remote attempt.  If the
first call's remote succeeds, the second call makes no remote attempt and
returns the cached category (equal to the first call's category whenever
that category is truthy); but its merchant is the heuristic one whenever
that is truthy, which can differ from the first call's remote-returned
merchant.  If the first call's remote fails, nothing is cached and the
second call makes a remote attempt again. -/
theorem enrich_secondCall_spec (transaction : ParsedTransaction) (cache : Cache)
    (remote remote2 : Nat → RemoteOutcome) :
    ((enrichTransaction transaction cache remote).remoteCalls = 0 →
      enrichTransaction transaction (enrichTransaction transaction cache remote).cache remote2
        = enrichTransaction transaction cache remote)
    ∧ (∀ m c info, ruleTableHit transaction = none →
        getCachedEnrichment cache (extractHeuristicData transaction.description).cacheKey
          = none →
        remote 0 = .success m c info →
        (enrichTransaction transaction
            (enrichTransaction transaction cache remote).cache remote2).remoteCalls = 0
        ∧ (enrichTransaction transaction
            (enrichTransaction transaction cache remote).cache remote2).result.category
            = some (jsOrStr (c.orElse fun _ => transaction.category) "Other")
        ∧ (optTruthy (c.orElse fun _ => transaction.category) = true →
            (enrichTransaction transaction
              (enrichTransaction transaction cache remote).cache remote2).result.category
              = (enrichTransaction transaction cache remote).result.category)
        ∧ (optTruthy (extractHeuristicData transaction.description).merchant = true →
            (enrichTransaction transaction
              (enrichTransaction transaction cache remote).cache remote2).result.merchant
              = (extractHeuristicData transaction.description).merchant))
    ∧ (ruleTableHit transaction = none →
        getCachedEnrichment cache (extractHeuristicData transaction.description).cacheKey
          = none →
        remote 0 = .failure →
        (enrichTransaction transaction cache remote).cache = cache
        ∧ (enrichTransaction transaction
            (enrichTransaction transaction cache remote).cache remote2).remoteCalls = 1) := by
  refine ⟨?_, ?_, ?_⟩
  · intro h0
    match hr : ruleTableHit transaction with
    | some c =>
      rw [enrich_ruleHit_eq transaction cache remote c hr]
      exact enrich_ruleHit_eq transaction cache remote2 c hr
    | none =>
      match hc : getCachedEnrichment cache (extractHeuristicData transaction.description).cacheKey with
      | some cd =>
        rw [enrich_cacheHit_eq transaction cache remote cd hr hc]
        exact enrich_cacheHit_eq transaction cache remote2 cd hr hc
      | none =>
        rw [enrich_remoteCalls_one transaction cache remote hr hc] at h0
        cases h0
  · intro m c info hr hc hrem
    have ho1 := enrich_remoteSuccess_eq transaction cache remote m c info hr hc hrem
    have hc2 : getCachedEnrichment (enrichTransaction transaction cache remote).cache
        (extractHeuristicData transaction.description).cacheKey =
        some ⟨jsOrStr (m.orElse fun _ => transaction.merchant) "Unknown",
              jsOrStr (c.orElse fun _ => transaction.category) "Other", info⟩ := by
      rw [ho1]
      exact getCachedEnrichment_set_self cache _ _
    have ho2 := enrich_cacheHit_eq transaction
      (enrichTransaction transaction cache remote).cache remote2 _ hr hc2
    refine ⟨by rw [ho2], by rw [ho2], ?_, ?_⟩
    · intro ht
      rw [ho2, ho1]
      exact jsOrStr_truthy _ "Other" ht
    · intro ht
      rw [ho2]
      simp only [ht, if_true]
      exact optTruthy_getD _ ht
  · intro hr hc hrem
    have ho1 := enrich_remoteFailure_eq transaction cache remote hr hc hrem
    constructor
    · rw [ho1]
    · rw [ho1]
      exact enrich_remoteCalls_one transaction cache remote2 hr hc

/-- C3 witness (for the amended theorem): a rule-table-resolved
transaction is enriched identically by a repeated call. -/
theorem enrich_secondCall_spec_witness :
    enrichTransaction naivasTx (enrichTransaction naivasTx [] failRemote).cache failRemote
      = enrichTransaction naivasTx [] failRemote :=
  (enrich_secondCall_spec naivasTx [] failRemote failRemote).1 (by decide)

/-! ## C9 — fail-open category-mismatch validation -/

/-- C9: on a fresh key (no memoised verdict), `validateCategoryMismatch`
short-circuits to `true` for `"Other"`/`"General"` without any remote
attempt, returns `true` (rather than raising) when the remote fails, and
returns `false` only when the remote succeeds and reports the
categorisation as not logical. -/
theorem validateCategoryMismatch_failOpen (description newCategory : String)
    (vc : ValidationCache) (remote : Nat → ValidationRemoteOutcome)
    (hmiss : vcacheGet vc (strToLower (jsTrim description) ++ "|" ++ strToLower newCategory)
      = none) :
    (newCategory = "Other" ∨ newCategory = "General" →
      validateCategoryMismatch description newCategory vc remote = ⟨true, 0, vc⟩)
    ∧ (remote 0 = .failure →
        (validateCategoryMismatch description newCategory vc remote).result = true
        ∧ (validateCategoryMismatch description newCategory vc remote).vcache = vc)
    ∧ ((validateCategoryMismatch description newCategory vc remote).result = false →
        remote 0 = .success false) := by
  unfold validateCategoryMismatch
  simp only [hmiss]
  split
  · next hcond =>
    refine ⟨fun _ => rfl, fun _ => ⟨rfl, rfl⟩, fun hfalse => ?_⟩
    cases hfalse
  · next hcond =>
    have hcond2 : ¬(newCategory = "Other" ∨ newCategory = "General") := by
      simpa using hcond
    match hrem : remote 0 with
    | .failure =>
      have hv : validateAttempt (strToLower (jsTrim description) ++ "|" ++ strToLower newCategory)
          vc remote 0 = .ok (true, vc) := by
        rw [validateAttempt, hrem]
      rw [retryWithBackoff_ok _ _ _ _ _ hv]
      exact ⟨fun h => absurd h hcond2, fun _ => ⟨rfl, rfl⟩, fun hfalse => by cases hfalse⟩
    | .success b =>
      have hv : validateAttempt (strToLower (jsTrim description) ++ "|" ++ strToLower newCategory)
          vc remote 0 = .ok (b, vcacheSet vc
            (strToLower (jsTrim description) ++ "|" ++ strToLower newCategory) b) := by
        rw [validateAttempt, hrem]
      rw [retryWithBackoff_ok _ _ _ _ _ hv]
      refine ⟨fun h => absurd h hcond2, fun hfail => ?_, fun hfalse => ?_⟩
      · cases hfail
      · have hb : b = false := by simpa using hfalse
        rw [hb]

/-- C9 witness: the theorem applied with an empty memo cache — the
`"Other"` shortcut and the fail-open failure branch. -/
theorem validateCategoryMismatch_failOpen_witness :
    validateCategoryMismatch "abc" "Other" [] (fun _ => .failure) = ⟨true, 0, []⟩ ∧
    (validateCategoryMismatch "abc" "Transport" [] (fun _ => .failure)).result = true := by
  constructor
  · exact (validateCategoryMismatch_failOpen "abc" "Other" [] (fun _ => .failure) rfl).1
      (Or.inl rfl)
  · exact ((validateCategoryMismatch_failOpen "abc" "Transport" [] (fun _ => .failure) rfl).2.1
      rfl).1

/-! ## C6 — batch enrichment index preservation -/

/-- C6 counterexample: on a successful remote call the orchestrator
returns the remote's parsed items verbatim, so a response carrying an
index the caller never supplied flows straight into the output — the
claimed unconditional index preservation fails for the success outcome. -/
theorem batch_index_counterexample :
    ∃ r ∈ (batchEnrichTransactions batchInput [] rogueBatchRemote).results,
      ∀ t ∈ batchInput, r.index ≠ t.index := by
  decide

/-- C6 (amended): on remote failure every input item yields the fallback
`{merchant: identifiedMerchant-or-"Unknown", category: "Other"}` carrying
its original index (the whole batch never fails); on success the output is
the remote response unchanged, so every output index is caller-supplied
provided the remote echoes only caller-supplied indices. -/
theorem batch_index_preservation (transactions : List TransactionToEnrich) (cache : Cache)
    (remote : Nat → BatchRemoteOutcome) :
    (remote 0 = .failure →
      (batchEnrichTransactions transactions cache remote).results =
        transactions.map fun t => ⟨t.index, jsOrStr t.identifiedMerchant "Unknown", "Other", none⟩)
    ∧ (∀ rs, remote 0 = .success rs →
        (batchEnrichTransactions transactions cache remote).results = rs
        ∨ (batchEnrichTransactions transactions cache remote).results = [])
    ∧ (∀ rs, remote 0 = .success rs →
        (∀ r ∈ rs, ∃ t ∈ transactions, r.index = t.index) →
        ∀ r ∈ (batchEnrichTransactions transactions cache remote).results,
          ∃ t ∈ transactions, r.index = t.index) := by
  cases transactions with
  | nil =>
    refine ⟨fun _ => by simp [batchEnrichTransactions], fun rs _ => Or.inr rfl, ?_⟩
    intro rs _ _ r hr
    simp [batchEnrichTransactions] at hr
  | cons t0 ts =>
    refine ⟨?_, ?_, ?_⟩
    · intro hrem
      have hv : batchAttempt (t0 :: ts) cache remote 0 =
          .ok ((t0 :: ts).map fun t =>
            ⟨t.index, jsOrStr t.identifiedMerchant "Unknown", "Other", none⟩, cache) := by
        rw [batchAttempt, hrem]
      unfold batchEnrichTransactions
      rw [retryWithBackoff_ok _ _ _ _ _ hv]
    · intro rs hrem
      refine Or.inl ?_
      have hv : batchAttempt (t0 :: ts) cache remote 0 =
          .ok (rs, rs.foldl (fun c r =>
            match (t0 :: ts).find? (fun t => t.index == r.index) with
            | some originalTx =>
              setCachedEnrichment c originalTx.cacheKey ⟨r.merchant, r.category, r.enrichedInfo⟩
            | none => c) cache) := by
        rw [batchAttempt, hrem]
      unfold batchEnrichTransactions
      rw [retryWithBackoff_ok _ _ _ _ _ hv]
    · intro rs hrem hidx r hr
      have hv : batchAttempt (t0 :: ts) cache remote 0 =
          .ok (rs, rs.foldl (fun c r =>
            match (t0 :: ts).find? (fun t => t.index == r.index) with
            | some originalTx =>
              setCachedEnrichment c originalTx.cacheKey ⟨r.merchant, r.category, r.enrichedInfo⟩
            | none => c) cache) := by
        rw [batchAttempt, hrem]
      unfold batchEnrichTransactions at hr
      rw [retryWithBackoff_ok _ _ _ _ _ hv] at hr
      exact hidx r hr

/-- C6 witness: the amended theorem applied to a one-element batch with a
failing remote — the fallback item keeps index 0. -/
theorem batch_index_preservation_witness :
    (batchEnrichTransactions batchInput [] failBatchRemote).results =
      [⟨0, "Unknown", "Other", none⟩] :=
  ((batch_index_preservation batchInput [] failBatchRemote).1 rfl).trans (by decide)

/-! ## C4 — the monthly window of the budget draft computation -/

/-- C4 counterexample: the window is not restricted to months with expense
activity — `allMonthsSet` collects the month of **every** transaction
before the type test, so a month containing only income (here `2025-02`)
is part of the window even though every expense lies in `2025-01`. -/
theorem sortedMonths_expenseActivity_counterexample :
    sortedMonths c4txs = ["2025-02", "2025-01"] ∧
    (∀ t ∈ c4txs, t.type = TransactionType.expense → monthKey t.date = "2025-01") := by
  constructor
  · decide
  · decide

/-- C4 (amended): the window consists of the most recent 12 distinct
calendar months containing **any** transaction activity (income, expense
or transfer): it is strictly descending in the string order on month keys,
has at most 12 entries, every entry is the month of some transaction, any
active month left out is older than every kept month (and then exactly 12
are kept), and each category's per-month vector is aligned to this window
with missing months contributing 0 (entry `i` is the category's expense
total in window month `i`). -/
theorem sortedMonths_window_spec (transactions : List Transaction) :
    List.Pairwise (fun a b => strLt b a = true) (sortedMonths transactions)
    ∧ (sortedMonths transactions).length ≤ 12
    ∧ (∀ m ∈ sortedMonths transactions, ∃ t ∈ transactions, monthKey t.date = m)
    ∧ (∀ m, (∃ t ∈ transactions, monthKey t.date = m) → m ∉ sortedMonths transactions →
        (sortedMonths transactions).length = 12
        ∧ ∀ m2 ∈ sortedMonths transactions, strLt m m2 = true)
    ∧ (∀ cat, monthlyValues transactions cat =
        (sortedMonths transactions).map fun mon => expenseMonthTotal transactions cat mon) := by
  have hsorted0 : List.Pairwise (fun x y => strLe x y = true)
      (jsSortBy strLe (budgetAccum transactions).allMonths) :=
    jsSortBy_pairwise strLe strLe_total strLe_trans _
  have hperm := jsSortBy_perm strLe (budgetAccum transactions).allMonths
  have hnodup : (jsSortBy strLe (budgetAccum transactions).allMonths).Nodup :=
    hperm.nodup_iff.mpr (allMonths_nodup transactions)
  have hstrict : List.Pairwise (fun x y => strLt x y = true)
      (jsSortBy strLe (budgetAccum transactions).allMonths) :=
    (hsorted0.and hnodup).imp fun h => strLt_of_le_of_ne _ _ h.1 h.2
  have hrev : List.Pairwise (fun x y => strLt y x = true)
      (jsSortBy strLe (budgetAccum transactions).allMonths).reverse :=
    List.pairwise_reverse.mpr hstrict
  have hwdef : sortedMonths transactions =
      ((jsSortBy strLe (budgetAccum transactions).allMonths).reverse).take 12 := rfl
  refine ⟨?_, ?_, ?_, ?_, fun cat => monthlyValues_eq transactions cat⟩
  · rw [hwdef]
    exact hrev.sublist (List.take_sublist 12 _)
  · rw [hwdef, List.length_take]
    exact Nat.min_le_left 12 _
  · intro m hm
    rw [hwdef] at hm
    exact (mem_allMonths transactions m).mp
      (hperm.mem_iff.mp (List.mem_reverse.mp (List.mem_of_mem_take hm)))
  · intro m hactive hnotin
    have hmem : m ∈ (jsSortBy strLe (budgetAccum transactions).allMonths).reverse :=
      List.mem_reverse.mpr (hperm.mem_iff.mpr ((mem_allMonths transactions m).mpr hactive))
    have hmem2 : m ∈ ((jsSortBy strLe (budgetAccum transactions).allMonths).reverse).take 12
        ++ ((jsSortBy strLe (budgetAccum transactions).allMonths).reverse).drop 12 := by
      rw [List.take_append_drop]
      exact hmem
    have hdrop : m ∈ ((jsSortBy strLe (budgetAccum transactions).allMonths).reverse).drop 12 := by
      rcases List.mem_append.mp hmem2 with h | h
      · rw [hwdef] at hnotin
        exact absurd h hnotin
      · exact h
    have hpairs := List.pairwise_append.mp (show List.Pairwise (fun x y => strLt y x = true)
        (((jsSortBy strLe (budgetAccum transactions).allMonths).reverse).take 12
          ++ ((jsSortBy strLe (budgetAccum transactions).allMonths).reverse).drop 12) by
      rw [List.take_append_drop]
      exact hrev)
    constructor
    · have hlen : 12 < (jsSortBy strLe (budgetAccum transactions).allMonths).reverse.length := by
        by_contra hle
        push_neg at hle
        rw [List.drop_eq_nil_of_le hle] at hdrop
        exact absurd hdrop (List.not_mem_nil m)
      rw [hwdef, List.length_take]
      omega
    · intro m2 hm2
      rw [hwdef] at hm2
      exact hpairs.2.2 m2 hm2 m hdrop

/-- C4 witness: the amended theorem applied to `c4txs` — the income-only
month `2025-02` is a window month backed by a transaction, and the
`Groceries` vector is aligned to the window. -/
theorem sortedMonths_window_spec_witness :
    (∃ t ∈ c4txs, monthKey t.date = "2025-02") ∧
    monthlyValues c4txs "Groceries" =
      (sortedMonths c4txs).map fun mon => expenseMonthTotal c4txs "Groceries" mon := by
  constructor
  · exact (sortedMonths_window_spec c4txs).2.2.1 "2025-02" (by decide)
  · exact (sortedMonths_window_spec c4txs).2.2.2.2 "Groceries"

/-! ## C10 — integer rounding of averages and suggested limits -/

/-- C10: every draft produced by the planning computation has an integer
`average`, namely `Math.round` of the per-month sum over the window length
(hence within `1/2` of the exact mean), and an integer initial `limit`:
an existing budget's limit verbatim (integral whenever stored budget
limits are integral, which the app guarantees via `Math.round`/`parseInt`
on every write), or one of the goal-derived suggestions — the rounded
average, the rounded 10% increase, or the rounded 20%/10% cuts. -/
theorem computeDrafts_rounding_spec (transactions : List Transaction)
    (existingBudgets : List Budget) (userProfile : Option UserProfile) (sqrtQ : ℚ → ℚ)
    (hb : ∀ b ∈ existingBudgets, ∃ n : ℤ, b.limit = (n : ℚ)) :
    ∀ d ∈ computeDrafts transactions existingBudgets userProfile sqrtQ,
      d.average = ((jsRound (d.history.sum / windowDenom transactions) : ℤ) : ℚ)
      ∧ (∃ n : ℤ, d.average = (n : ℚ))
      ∧ |d.average - d.history.sum / windowDenom transactions| ≤ 1 / 2
      ∧ (∃ n : ℤ, d.limit = (n : ℚ))
      ∧ (∀ b, existingBudgets.find? (fun bb => bb.category == d.category) = some b →
          d.limit = b.limit)
      ∧ (existingBudgets.find? (fun bb => bb.category == d.category) = none →
          d.limit = ((jsRound (d.history.sum / windowDenom transactions) : ℤ) : ℚ)
          ∨ d.limit = ((jsRound (d.history.sum / windowDenom transactions * (11 / 10)) : ℤ) : ℚ)
          ∨ d.limit = ((jsRound (d.history.sum / windowDenom transactions * (4 / 5)) : ℤ) : ℚ)
          ∨ d.limit = ((jsRound (d.history.sum / windowDenom transactions * (9 / 10)) : ℤ) : ℚ)) := by
  intro d hd
  have hd2 : d ∈ ((budgetAccum transactions).expenseByMonthCategory.map fun e => e.1).map
      (buildDraft transactions existingBudgets userProfile sqrtQ) :=
    (jsSortBy_perm _ _).mem_iff.mp hd
  obtain ⟨cat, hcat, rfl⟩ := List.mem_map.mp hd2
  refine ⟨rfl, ⟨_, rfl⟩, jsRound_cast_sub_le _, ?_, ?_, ?_⟩
  · match hfind : existingBudgets.find? (fun bb => bb.category == cat) with
    | some b =>
      obtain ⟨n, hn⟩ := hb b (List.mem_of_find?_eq_some hfind)
      exact ⟨n, by
        rw [buildDraft_limit_existing transactions existingBudgets userProfile sqrtQ cat b hfind]
        exact hn⟩
    | none =>
      rcases buildDraft_limit_fresh transactions existingBudgets userProfile sqrtQ cat hfind
        with h | h | h | h <;> exact ⟨_, by rw [h]⟩
  · intro b hfind
    exact buildDraft_limit_existing transactions existingBudgets userProfile sqrtQ cat b hfind
  · intro hfind
    exact buildDraft_limit_fresh transactions existingBudgets userProfile sqrtQ cat hfind

/-- C10 witness: the theorem applied to the single-transaction history
(one `Groceries` expense), no existing budgets, no profile. -/
theorem computeDrafts_rounding_spec_witness :
    sampleDraft.average = ((jsRound (sampleDraft.history.sum / windowDenom [foodTx]) : ℤ) : ℚ)
    ∧ (∃ n : ℤ, sampleDraft.limit = (n : ℚ)) := by
  have h := computeDrafts_rounding_spec [foodTx] [] none sqrtZero (by simp) sampleDraft
    (List.mem_singleton_self sampleDraft)
  exact ⟨h.1, h.2.2.2.1⟩

/-! ## C5 — the Uber end-to-end scenario -/

/-- C5 counterexample: the Category Rule Table is not Uber-free — its
Transport rule lists the keyword `"uber"`, which matches the extracted
merchant `"UBER * PENDING AMSTERDAM"` case-insensitively, so category
resolution does **not** fall through to the cache/remote layers for this
transaction. -/
theorem uberScenario_counterexample :
    (extractHeuristicData uberDescription).merchant = some "UBER * PENDING AMSTERDAM" ∧
    getCategoryForMerchant "UBER * PENDING AMSTERDAM" = some "Transport" := by
  constructor <;> decide

/-- C5 (amended): the debit-card rule extracts merchant
`"UBER * PENDING AMSTERDAM"` (containing `"UBER"`) with `cacheKey` equal
to that merchant, and — the rule table carrying an `"uber"` keyword —
`enrichTransaction` resolves the transaction immediately at the rule-table
layer as `Transport`, with no cache read and no remote attempt. -/
theorem uberScenario_amended :
    (extractHeuristicData uberDescription).merchant = some "UBER * PENDING AMSTERDAM" ∧
    (extractHeuristicData uberDescription).cacheKey = "UBER * PENDING AMSTERDAM" ∧
    strIncludes "UBER * PENDING AMSTERDAM" "UBER" = true ∧
    ∀ amount ty date cache remote,
      enrichTransaction ⟨none, amount, none, ty, date, uberDescription⟩ cache remote =
        ⟨⟨some "UBER * PENDING AMSTERDAM", amount, some "Transport", ty, date,
          uberDescription, none⟩, 0, 0, cache⟩ := by
  refine ⟨by decide, by decide, by decide, ?_⟩
  intro amount ty date cache remote
  have hclosed : ruleTableHit ⟨none, 0, none, TransactionType.expense, "", uberDescription⟩
      = some "Transport" := by decide
  exact enrich_ruleHit_eq ⟨none, amount, none, ty, date, uberDescription⟩ cache remote
    "Transport" hclosed

end ShillingSense
